import Mathlib

/-!
Formal model of the MineSweeper repository: the `Board` engine of
`Minesweeper.py` (mine placement, cascading reveal, flag toggling, victory
detection) and the AutoPlay solver of `Minesweeper_AutoPlay.py` (the
`check` / `solution` functions).  The Python code is embedded shallowly:
Python lists become `List`, list indexing (including negative-index
wrapping and `IndexError`) is modelled by `pyGet` / `pySet`, exceptions
become the `Except` monad, and the nondeterminism of `random.sample` is
an explicit oracle argument validated against the postcondition of
`random.sample`.  The `V2.0` copies of the two files contain the same
`Board` class and the same solver (only GUI and logging differ), so this
single model covers both.
-/

deriving instance DecidableEq for Except

namespace MineSweeper

/-- Python exceptions that the modelled code can raise. -/
inductive PyErr where
  | indexError
  | valueError
  | raised (msg : String)
deriving Repr, DecidableEq

/-- Computations that may raise a Python exception. -/
abbrev Py (α : Type) := Except PyErr α

/-- A Python list of lists. -/
abbrev Grid (α : Type) := List (List α)

/-- Python list index semantics: an index `0 ≤ i < len` is used directly,
an index `-len ≤ i < 0` wraps to `len + i`, anything else is an
`IndexError`. -/
def normIdx (len : Nat) (i : Int) : Option Nat :=
  if 0 ≤ i then (if i < (len : Int) then some i.toNat else none)
  else (if -(len : Int) ≤ i then some ((len : Int) + i).toNat else none)

/-- Read `xs[i]` with Python index semantics. -/
def pyGet {α : Type} (xs : List α) (i : Int) : Py α :=
  match normIdx xs.length i with
  | some k =>
    match xs.get? k with
    | some a => .ok a
    | none => .error .indexError
  | none => .error .indexError

/-- Write `xs[i] = a` with Python index semantics. -/
def pySet {α : Type} (xs : List α) (i : Int) (a : α) : Py (List α) :=
  match normIdx xs.length i with
  | some k => .ok (xs.set k a)
  | none => .error .indexError

/-- Read `g[r][c]`. -/
def pyGet2 {α : Type} (g : Grid α) (r c : Int) : Py α := do
  let row ← pyGet g r
  pyGet row c

/-- Write `g[r][c] = a` (the row is mutated in place in Python; here the
updated row is written back at the same wrapped index). -/
def pySet2 {α : Type} (g : Grid α) (r c : Int) (a : α) : Py (Grid α) := do
  let row ← pyGet g r
  let row' ← pySet row c a
  pySet g r row'

/-- Read a grid entry at already-normalized (non-negative, in-range)
indices; used to state properties of grids. -/
def natGet {α : Type} (g : Grid α) (i j : Nat) : Option α :=
  (g.get? i).bind (fun row => row.get? j)

/-- The grid has exactly `R` rows, each of length `C`. -/
def Shape {α : Type} (g : Grid α) (R C : Nat) : Prop :=
  g.length = R ∧ ∀ row ∈ g, row.length = C

instance {α : Type} (g : Grid α) (R C : Nat) : Decidable (Shape g R C) := by
  unfold Shape; infer_instance

/-- `[[a]*cols for _ in range(rows)]`. -/
def mkGrid {α : Type} (rows cols : Nat) (a : α) : Grid α :=
  List.replicate rows (List.replicate cols a)

/-- All board coordinates in row-major order,
`[(r,c) for r in range(R) for c in range(C)]`. -/
def cellList (R C : Nat) : List (Nat × Nat) :=
  (List.range R).flatMap (fun r => (List.range C).map (fun c => (r, c)))

/-- `Board.in_bounds`: `0 <= r < rows and 0 <= c < cols`. -/
def inBounds (rows cols : Nat) (r c : Int) : Bool :=
  decide (0 ≤ r) && decide (r < (rows : Int)) && decide (0 ≤ c) && decide (c < (cols : Int))

/-- The eight `(dr, dc)` offsets in the generation order of
`Board.neighbors` (`dr` then `dc`, skipping `(0,0)`). -/
def deltas : List (Int × Int) :=
  [(-1, -1), (-1, 0), (-1, 1), (0, -1), (0, 1), (1, -1), (1, 0), (1, 1)]

/-- `Board.neighbors`: the in-bounds 8-neighbours of `(r, c)`, in
generation order. -/
def neighbors (rows cols : Nat) (r c : Int) : List (Int × Int) :=
  (deltas.map (fun d => (r + d.1, c + d.2))).filter
    (fun p => inBounds rows cols p.1 p.2)

/-- The state of `Board` (class attribute `MINE = -1` is the constant
`MINE` below). -/
structure Board where
  rows : Nat
  cols : Nat
  mines_count : Nat
  mines : List (Int × Int)
  revealed : Grid Bool
  flagged : Grid Bool
  board : Grid Int
  placed : Bool
  game_over : Bool
  victory : Bool
deriving Repr, DecidableEq

/-- `Board.MINE`. -/
def MINE : Int := -1

/-- `Board.reset` (also the state produced by `Board.__init__`). -/
def Board.reset (rows cols mines_count : Nat) : Board :=
  { rows := rows, cols := cols, mines_count := mines_count, mines := [],
    revealed := mkGrid rows cols false, flagged := mkGrid rows cols false,
    board := mkGrid rows cols 0,
    placed := false, game_over := false, victory := false }

/-- The postcondition of `random.sample(available, k)`: the result is a
duplicate-free list of `k` elements of `available`.  `random.sample`
raises `ValueError` exactly when no such list exists
(i.e. when `k > len(available)`). -/
def sampleOk (available : List (Int × Int)) (k : Nat) (s : List (Int × Int)) : Prop :=
  s.length = k ∧ s.Nodup ∧ ∀ p ∈ s, p ∈ available

instance (a : List (Int × Int)) (k : Nat) (s : List (Int × Int)) :
    Decidable (sampleOk a k s) := by
  unfold sampleOk; infer_instance

/-- `Board.place_mines`.  The choice made by `random.sample` is passed in
as the oracle `sample` and validated against `random.sample`'s
postcondition; a `ValueError` results when the oracle is not a valid
sample (in particular whenever `mines_count > len(available)`, where
`random.sample` itself raises). -/
def Board.place_mines (b : Board) (safe_r safe_c : Int)
    (sample : List (Int × Int)) : Py Board :=
  let cells := (cellList b.rows b.cols).map (fun p => ((p.1 : Int), (p.2 : Int)))
  let safe_zone := (safe_r, safe_c) :: neighbors b.rows b.cols safe_r safe_c
  let available := cells.filter (fun p => decide (p ∉ safe_zone))
  if sampleOk available b.mines_count sample then do
    let board1 ← sample.foldlM (fun g p => pySet2 g p.1 p.2 MINE) b.board
    let board2 ← (cellList b.rows b.cols).foldlM (fun g p => do
      let v ← pyGet2 g (p.1 : Int) (p.2 : Int)
      if v = MINE then pure g
      else (pySet2 g (p.1 : Int) (p.2 : Int)
        (((neighbors b.rows b.cols (p.1 : Int) (p.2 : Int)).countP
          (fun q => decide (q ∈ sample)) : Nat) : Int))) board1
    pure { b with mines := sample, board := board2, placed := true }
  else .error .valueError

/-- Number of revealed cells, as counted by `Board.check_victory`
(`sum(1 for r in range(rows) for c in range(cols) if revealed[r][c])`). -/
def revealedCount (b : Board) : Nat :=
  ((cellList b.rows b.cols).filter
    (fun p => decide (natGet b.revealed p.1 p.2 = some true))).length

/-- `Board.check_victory`.  The comparison is between Python integers, so
it is stated over `Int` (`rows*cols - mines_count` may be negative). -/
def Board.check_victory (b : Board) : Board :=
  if b.game_over then b
  else if (revealedCount b : Int) = (b.rows : Int) * (b.cols : Int) - (b.mines_count : Int) then
    { b with game_over := true, victory := true }
  else b

/-- The cells pushed after revealing `(cr, cc)` whose board value is `v`:
if `v == 0`, the in-bounds neighbours that are unrevealed (in the
just-updated `rev'`) and unflagged.  Reads are at in-bounds coordinates
of a well-shaped grid, so they cannot raise, and the Python boolean test
`not revealed[nr][nc] and not flagged[nr][nc]` becomes a boolean
filter. -/
def pushList (flg : Grid Bool) (rows cols : Nat)
    (rev' : Grid Bool) (cr cc v : Int) : List (Int × Int) :=
  if v = 0 then
    (neighbors rows cols cr cc).filter (fun p =>
      decide (pyGet2 rev' p.1 p.2 = Except.ok false) &&
      decide (pyGet2 flg p.1 p.2 = Except.ok false))
  else []

/-- One pass of the `while stack:` loop of `Board.reveal`, structurally
recursive on an explicit fuel (the loop's termination measure, see
`unrevCount`).  Popping from the end of a Python list is modelled by
keeping the top of the stack at the head, so the `stack.append` run over
the neighbour list becomes `pushes.reverse ++`. -/
def cascadeF (brd : Grid Int) (flg : Grid Bool) (rows cols : Nat) :
    Nat → Grid Bool → List (Int × Int) → Py (Grid Bool)
  | _, rev, [] => pure rev
  | 0, _, _ :: _ => .error (.raised "fuel exhausted")
  | fuel + 1, rev, (cr, cc) :: rest =>
    match pyGet2 rev cr cc with
    | .error e => .error e
    | .ok true => cascadeF brd flg rows cols fuel rev rest
    | .ok false =>
      match pySet2 rev cr cc true with
      | .error e => .error e
      | .ok rev' =>
        match pyGet2 brd cr cc with
        | .error e => .error e
        | .ok v =>
          cascadeF brd flg rows cols fuel rev'
            ((pushList flg rows cols rev' cr cc v).reverse ++ rest)

/-- Number of unrevealed cells; `9 * unrevCount + stack length + 1` is a
strict bound on the number of iterations of the `while stack:` loop
(each iteration either pops a revealed cell, or reveals a new cell and
pushes at most 8 neighbours), so it serves as sufficient fuel. -/
def unrevCount (g : Grid Bool) : Nat :=
  (g.map (fun row => row.countP (fun x => !x))).sum

/-- `Board.reveal`.  `sample` is the oracle for `random.sample` inside
the lazy `place_mines` call. -/
def Board.reveal (b : Board) (r c : Int) (sample : List (Int × Int)) : Py Board :=
  if b.game_over then pure b else do
  let f ← pyGet2 b.flagged r c
  if f then pure b else do
  let v ← pyGet2 b.revealed r c
  if v then pure b else do
  let b1 ← if b.placed then pure b else b.place_mines r c sample
  if (r, c) ∈ b1.mines then do
    let rev ← pySet2 b1.revealed r c true
    pure { b1 with revealed := rev, game_over := true, victory := false }
  else do
    let rev ← cascadeF b1.board b1.flagged b1.rows b1.cols
      (9 * unrevCount b1.revealed + 2) b1.revealed [(r, c)]
    pure (Board.check_victory { b1 with revealed := rev })

/-- `Board.toggle_flag`. -/
def Board.toggle_flag (b : Board) (r c : Int) : Py Board :=
  if b.game_over then pure b else do
  let v ← pyGet2 b.revealed r c
  if v then pure b else do
  let f ← pyGet2 b.flagged r c
  let flg ← pySet2 b.flagged r c (!f)
  pure (Board.check_victory { b with flagged := flg })

/-- All boards reachable from a freshly constructed board by successful
`reveal` / `toggle_flag` calls.  (A call that raises leaves the state
unchanged: every raise in `reveal` / `toggle_flag` happens before the
first mutation, so error transitions need not be tracked.) -/
inductive Reachable : Board → Prop
  | reset (rows cols mines_count : Nat) :
      Reachable (Board.reset rows cols mines_count)
  | reveal {b b' : Board} (r c : Int) (sample : List (Int × Int)) :
      Reachable b → b.reveal r c sample = .ok b' → Reachable b'
  | flag {b b' : Board} (r c : Int) :
      Reachable b → b.toggle_flag r c = .ok b' → Reachable b'

/-! ## The AutoPlay solver (`Minesweeper_AutoPlay.py`)

The solver receives the classified view built by `get_solver_board`: a
grid of the strings `'#'` (`UNSEEN`), `'F'` (`FLAGGED`), `'*'` (a
revealed mine) and `'0'`..`'8'`.  That closed alphabet is modelled by
`Sym`; `int(s)` applied to a symbol yields its count for `'0'`..`'8'`
and raises `ValueError` for `'*'`. -/

/-- The cell symbols of the classified view. -/
inductive Sym where
  | unseen
  | flaggedSym
  | mineSym
  | count (n : Nat)
deriving Repr, DecidableEq

/-- The cells visited by `check`'s neighbourhood loop
(`for i in range(t-1, t+2): for j in range(k-1, k+2)`), restricted by the
guard `i >= 0 and j >= 0 and i < m and j < n`.  Note that the loop does
not skip the centre `(t, k)` itself. -/
def scanCells (t k : Int) (m n : Nat) : List (Int × Int) :=
  (([t - 1, t, t + 1] : List Int).flatMap
    (fun i => ([k - 1, k, k + 1] : List Int).map (fun j => (i, j)))).filter
    (fun p => decide (0 ≤ p.1) && decide (0 ≤ p.2) &&
      decide (p.1 < (m : Int)) && decide (p.2 < (n : Int)))

/-- `check(board, t, k, m, n)`.  Returns `none` for Python's `-1`,
`some (0, unseen)` / `some (1, unseen)` for the two deductions.
`int(board[t][k])` on `'*'` raises `ValueError`. -/
def check (board : Grid Sym) (t k : Int) (m n : Nat) :
    Py (Option (Nat × List (Int × Int))) := do
  let target ← pyGet2 board t k
  match target with
  | .unseen => pure none
  | .flaggedSym => pure none
  | .mineSym => .error .valueError
  | .count tn => do
    let syms ← (scanCells t k m n).mapM (fun p => do
      let s ← pyGet2 board p.1 p.2
      pure (p, s))
    let flagged := (syms.filter (fun ps => decide (ps.2 = Sym.flaggedSym))).length
    let unseen := (syms.filter (fun ps => decide (ps.2 = Sym.unseen))).map (fun ps => ps.1)
    if unseen.length ≠ 0 then
      if flagged = tn then pure (some (0, unseen))
      else if (tn : Int) - (flagged : Int) = (unseen.length : Int) then
        pure (some (1, unseen))
      else pure none
    else pure none

/-- The message of the exception raised by `solution` when no unseen
square is left. -/
def solverFailMsg : String :=
  "SOLUTION FUNCTION FAILUER: There is no unseen squer left!"

/-- The `for i in range(m): for j in range(n):` loop of `solution`,
recursing over the remaining cells and carrying `doomsday_plan`. -/
def solLoop (board : Grid Sym) (m n : Nat) :
    List (Nat × Nat) → Int × Int → Py (Nat × List (Int × Int))
  | [], dd => if dd = (-1, -1) then .error (.raised solverFailMsg) else pure (0, [dd])
  | (i, j) :: rest, dd => do
    let result ← check board (i : Int) (j : Int) m n
    let sym ← pyGet2 board (i : Int) (j : Int)
    let dd' := if sym = Sym.unseen then ((i : Int), (j : Int)) else dd
    match result with
    | some res => pure res
    | none => solLoop board m n rest dd'

/-- `solution(board, m, n)`. -/
def solution (board : Grid Sym) (m n : Nat) : Py (Nat × List (Int × Int)) :=
  solLoop board m n (cellList m n) (-1, -1)

/-! ## Index and grid lemmas -/

theorem normIdx_lt {len : Nat} {i : Int} {k : Nat} (h : normIdx len i = some k) :
    k < len := by
  unfold normIdx at h
  split at h <;> split at h <;> simp_all <;> omega

theorem normIdx_coe {len i : Nat} (h : i < len) : normIdx len (i : Int) = some i := by
  unfold normIdx
  simp [Int.toNat_natCast, h, Int.ofNat_lt.mpr h]

theorem normIdx_neg {len : Nat} {i : Int} (h0 : i < 0) (h1 : -(len : Int) ≤ i) :
    normIdx len i = some ((len : Int) + i).toNat := by
  unfold normIdx
  simp [not_le.mpr h0, h1]

theorem normIdx_none_of_ge {len : Nat} {i : Int} (h : (len : Int) ≤ i) :
    normIdx len i = none := by
  unfold normIdx
  have h0 : 0 ≤ i := le_trans (by positivity) h
  simp [h0, not_lt.mpr h]

theorem pyGet_ok_iff {α : Type} {xs : List α} {i : Int} {a : α} :
    pyGet xs i = .ok a ↔ ∃ k, normIdx xs.length i = some k ∧ xs.get? k = some a := by
  unfold pyGet
  constructor
  · intro h
    split at h
    · rename_i k hk
      split at h
      · rename_i b hb
        exact ⟨k, hk, by rw [hb]; simpa using h⟩
      · exact absurd h (by simp)
    · exact absurd h (by simp)
  · rintro ⟨k, hk, ha⟩
    rw [List.get?_eq_getElem?] at ha
    simp [hk, ha]

theorem pyGet_ok_of_norm {α : Type} {xs : List α} {i : Int} {k : Nat}
    (h : normIdx xs.length i = some k) :
    ∃ a, xs.get? k = some a ∧ pyGet xs i = .ok a := by
  have hk : k < xs.length := normIdx_lt h
  obtain ⟨a, ha⟩ : ∃ a, xs.get? k = some a :=
    ⟨xs.get ⟨k, hk⟩, List.get?_eq_get hk⟩
  exact ⟨a, ha, pyGet_ok_iff.mpr ⟨k, h, ha⟩⟩

theorem pySet_ok_iff {α : Type} {xs ys : List α} {i : Int} {a : α} :
    pySet xs i a = .ok ys ↔ ∃ k, normIdx xs.length i = some k ∧ ys = xs.set k a := by
  unfold pySet
  constructor
  · intro h
    split at h
    · rename_i k hk
      exact ⟨k, hk, by simpa using h.symm⟩
    · exact absurd h (by simp)
  · rintro ⟨k, hk, rfl⟩
    rw [hk]

theorem pyGet2_ok_iff {α : Type} {g : Grid α} {r c : Int} {v : α} :
    pyGet2 g r c = .ok v ↔
      ∃ i row j, normIdx g.length r = some i ∧ g.get? i = some row ∧
        normIdx row.length c = some j ∧ row.get? j = some v := by
  unfold pyGet2
  constructor
  · intro h
    cases hrow : pyGet g r with
    | error e => rw [hrow] at h; exact absurd h (by simp [Bind.bind, Except.bind])
    | ok row =>
      rw [hrow] at h
      simp only [Bind.bind, Except.bind] at h
      obtain ⟨i, hi, hrow'⟩ := pyGet_ok_iff.mp hrow
      obtain ⟨j, hj, hv⟩ := pyGet_ok_iff.mp h
      exact ⟨i, row, j, hi, hrow', hj, hv⟩
  · rintro ⟨i, row, j, hi, hrow, hj, hv⟩
    have h1 : pyGet g r = .ok row := pyGet_ok_iff.mpr ⟨i, hi, hrow⟩
    have h2 : pyGet row c = .ok v := pyGet_ok_iff.mpr ⟨j, hj, hv⟩
    rw [h1]
    simpa [Bind.bind, Except.bind] using h2

theorem pySet2_ok_iff {α : Type} {g g' : Grid α} {r c : Int} {a : α} :
    pySet2 g r c a = .ok g' ↔
      ∃ i row j, normIdx g.length r = some i ∧ g.get? i = some row ∧
        normIdx row.length c = some j ∧ g' = g.set i (row.set j a) := by
  unfold pySet2
  constructor
  · intro h
    cases hrow : pyGet g r with
    | error e => rw [hrow] at h; exact absurd h (by simp [Bind.bind, Except.bind])
    | ok row =>
      rw [hrow] at h
      simp only [Bind.bind, Except.bind] at h
      cases hset : pySet row c a with
      | error e => rw [hset] at h; exact absurd h (by simp)
      | ok row' =>
        rw [hset] at h
        simp only at h
        obtain ⟨i, hi, hrow'⟩ := pyGet_ok_iff.mp hrow
        obtain ⟨j, hj, hrj⟩ := pySet_ok_iff.mp hset
        obtain ⟨k, hk, hg'⟩ := pySet_ok_iff.mp h
        have hki : k = i := by
          rw [hi] at hk; exact (Option.some_inj.mp hk).symm
        exact ⟨i, row, j, hi, hrow', hj, by rw [hg', hki, hrj]⟩
  · rintro ⟨i, row, j, hi, hrow, hj, rfl⟩
    have h1 : pyGet g r = .ok row := pyGet_ok_iff.mpr ⟨i, hi, hrow⟩
    have h2 : pySet row c a = .ok (row.set j a) := pySet_ok_iff.mpr ⟨j, hj, rfl⟩
    have h3 : pySet g r (row.set j a) = .ok (g.set i (row.set j a)) :=
      pySet_ok_iff.mpr ⟨i, hi, rfl⟩
    rw [h1]
    simp only [Bind.bind, Except.bind]
    rw [h2]
    simpa using h3

theorem shape_row {α : Type} {g : Grid α} {R C : Nat} (hs : Shape g R C)
    {i : Nat} {row : List α} (h : g.get? i = some row) : row.length = C :=
  hs.2 row (List.get?_mem h)

theorem natGet_eq {α : Type} (g : Grid α) (i j : Nat) {row : List α}
    (hrow : g.get? i = some row) : natGet g i j = row.get? j := by
  unfold natGet
  rw [hrow]
  rfl

theorem shape_natGet {α : Type} {g : Grid α} {R C : Nat} (hs : Shape g R C)
    {i j : Nat} (hi : i < R) (hj : j < C) : ∃ v, natGet g i j = some v := by
  have hi' : i < g.length := hs.1 ▸ hi
  obtain ⟨row, hrow⟩ : ∃ row, g.get? i = some row :=
    ⟨g.get ⟨i, hi'⟩, List.get?_eq_get hi'⟩
  have hj' : j < row.length := (shape_row hs hrow) ▸ hj
  obtain ⟨v, hv⟩ : ∃ v, row.get? j = some v :=
    ⟨row.get ⟨j, hj'⟩, List.get?_eq_get hj'⟩
  exact ⟨v, by rw [natGet_eq g i j hrow]; exact hv⟩

theorem natGet_bounds {α : Type} {g : Grid α} {R C : Nat} (hs : Shape g R C)
    {i j : Nat} {v : α} (h : natGet g i j = some v) : i < R ∧ j < C := by
  unfold natGet at h
  cases hrow : g.get? i with
  | none => rw [hrow] at h; simp at h
  | some row =>
    rw [hrow] at h
    replace h : row.get? j = some v := h
    have hi : i < g.length := by
      rw [List.get?_eq_some] at hrow; exact hrow.1
    have hj : j < row.length := by
      rw [List.get?_eq_some] at h; exact h.1
    exact ⟨hs.1 ▸ hi, (shape_row hs hrow) ▸ hj⟩

theorem pyGet2_shape_ok {α : Type} {g : Grid α} {R C : Nat} (hs : Shape g R C)
    {r c : Int} {i j : Nat} (hr : normIdx R r = some i) (hc : normIdx C c = some j)
    {v : α} : pyGet2 g r c = .ok v ↔ natGet g i j = some v := by
  constructor
  · intro h
    obtain ⟨i', row, j', hi', hrow, hj', hv⟩ := pyGet2_ok_iff.mp h
    rw [hs.1] at hi'
    rw [shape_row hs hrow] at hj'
    rw [hr] at hi'
    rw [hc] at hj'
    obtain rfl : i = i' := Option.some_inj.mp hi'
    obtain rfl : j = j' := Option.some_inj.mp hj'
    rw [natGet_eq g i j hrow]
    exact hv
  · intro h
    unfold natGet at h
    cases hrow : g.get? i with
    | none => rw [hrow] at h; simp at h
    | some row =>
      rw [hrow] at h
      replace h : row.get? j = some v := h
      exact pyGet2_ok_iff.mpr ⟨i, row, j, hs.1 ▸ hr, hrow, (shape_row hs hrow) ▸ hc, h⟩

theorem pyGet2_coe {α : Type} {g : Grid α} {R C : Nat} (hs : Shape g R C)
    {i j : Nat} (hi : i < R) (hj : j < C) {v : α} :
    pyGet2 g (i : Int) (j : Int) = .ok v ↔ natGet g i j = some v :=
  pyGet2_shape_ok hs (normIdx_coe hi) (normIdx_coe hj)

theorem pySet2_shape {α : Type} {g g' : Grid α} {R C : Nat} (hs : Shape g R C)
    {r c : Int} {a : α} (h : pySet2 g r c a = .ok g') : Shape g' R C := by
  obtain ⟨i, row, j, _, hrow, _, rfl⟩ := pySet2_ok_iff.mp h
  refine ⟨by simpa using hs.1, ?_⟩
  intro row' hrow'
  rcases List.mem_or_eq_of_mem_set hrow' with h' | rfl
  · exact hs.2 row' h'
  · simpa using shape_row hs hrow

theorem pySet2_exists_of_pyGet2 {α : Type} {g : Grid α} {r c : Int} {v : α}
    (h : pyGet2 g r c = .ok v) (a : α) : ∃ g', pySet2 g r c a = .ok g' := by
  obtain ⟨i, row, j, hi, hrow, hj, _⟩ := pyGet2_ok_iff.mp h
  exact ⟨_, pySet2_ok_iff.mpr ⟨i, row, j, hi, hrow, hj, rfl⟩⟩

theorem natGet_pySet2 {α : Type} {g g' : Grid α} {R C : Nat} (hs : Shape g R C)
    {r c : Int} {i0 j0 : Nat} (hr : normIdx R r = some i0) (hc : normIdx C c = some j0)
    {a : α} (h : pySet2 g r c a = .ok g') (i j : Nat) :
    natGet g' i j = if i = i0 ∧ j = j0 then some a else natGet g i j := by
  obtain ⟨i', row, j', hi', hrow, hj', rfl⟩ := pySet2_ok_iff.mp h
  rw [hs.1, hr] at hi'
  rw [shape_row hs hrow, hc] at hj'
  obtain rfl : i0 = i' := Option.some_inj.mp hi'
  obtain rfl : j0 = j' := Option.some_inj.mp hj'
  have hi0len : i0 < g.length := hs.1 ▸ normIdx_lt hr
  have hj0len : j0 < row.length := (shape_row hs hrow) ▸ normIdx_lt hc
  by_cases hii : i = i0
  · subst hii
    rw [natGet_eq _ i j (List.get?_set_eq_of_lt _ hi0len)]
    by_cases hjj : j = j0
    · subst hjj
      rw [List.get?_set_eq_of_lt _ hj0len]
      simp
    · rw [List.get?_set_ne _ _ (fun h' => hjj h'.symm)]
      rw [natGet_eq g i j hrow]
      simp [hjj]
  · have hset : (g.set i0 (row.set j0 a)).get? i = g.get? i :=
      List.get?_set_ne _ _ (fun h' => hii h'.symm)
    unfold natGet
    rw [hset]
    simp [hii]

theorem shape_mkGrid {α : Type} (R C : Nat) (a : α) : Shape (mkGrid R C a) R C := by
  constructor
  · simp [mkGrid]
  · intro row hrow
    have hmem : row = List.replicate C a :=
      List.eq_of_mem_replicate (by simpa [mkGrid] using hrow)
    rw [hmem]
    simp

theorem natGet_mkGrid {α : Type} (R C : Nat) (a : α) (i j : Nat) :
    natGet (mkGrid R C a) i j = if i < R ∧ j < C then some a else none := by
  by_cases hi : i < R
  · have hrow : (mkGrid R C a).get? i = some (List.replicate C a) := by
      unfold mkGrid
      rw [List.get?_eq_get (by simpa using hi)]
      simp [List.get_replicate]
    rw [natGet_eq _ i j hrow]
    by_cases hj : j < C
    · rw [List.get?_eq_get (by simpa using hj)]
      simp [List.get_replicate, hi, hj]
    · rw [List.get?_eq_none.mpr (by simpa using not_lt.mp hj)]
      simp [hj]
  · have hrow : (mkGrid R C a).get? i = none := by
      unfold mkGrid
      exact List.get?_eq_none.mpr (by simpa using not_lt.mp hi)
    unfold natGet
    rw [hrow]
    simp [hi]

theorem mem_cellList {R C : Nat} {p : Nat × Nat} :
    p ∈ cellList R C ↔ p.1 < R ∧ p.2 < C := by
  obtain ⟨i, j⟩ := p
  simp [cellList, List.mem_flatMap, List.mem_map, List.mem_range]

theorem nodup_cellList (R C : Nat) : (cellList R C).Nodup := by
  unfold cellList
  rw [List.nodup_flatMap]
  constructor
  · intro r _
    have hinj : Function.Injective (fun c => ((r, c) : Nat × Nat)) := by
      intro a b hab
      simpa using hab
    exact List.Nodup.map hinj (List.nodup_range C)
  · refine List.Pairwise.imp ?_ (List.nodup_range R)
    intro a b hab
    simp only [Function.onFun, List.disjoint_left, List.mem_map, List.mem_range]
    rintro p ⟨c, _, rfl⟩ ⟨c', _, h⟩
    have hba : b = a := by simpa using congrArg Prod.fst h
    exact hab hba.symm

theorem inBounds_iff {R C : Nat} {r c : Int} :
    inBounds R C r c = true ↔ 0 ≤ r ∧ r < (R : Int) ∧ 0 ≤ c ∧ c < (C : Int) := by
  simp [inBounds, and_assoc]

theorem inBounds_normIdx {R C : Nat} {r c : Int} (h : inBounds R C r c = true) :
    normIdx R r = some r.toNat ∧ normIdx C c = some c.toNat := by
  obtain ⟨h1, h2, h3, h4⟩ := inBounds_iff.mp h
  unfold normIdx
  constructor
  · simp [h1, h2]
  · simp [h3, h4]

theorem inBounds_toNat_lt {R C : Nat} {r c : Int} (h : inBounds R C r c = true) :
    r.toNat < R ∧ c.toNat < C := by
  obtain ⟨h1, h2, h3, h4⟩ := inBounds_iff.mp h
  omega

theorem inBounds_coe_toNat {R C : Nat} {r c : Int} (h : inBounds R C r c = true) :
    (r.toNat : Int) = r ∧ (c.toNat : Int) = c := by
  obtain ⟨h1, h2, h3, h4⟩ := inBounds_iff.mp h
  omega

theorem mem_neighbors_inBounds {R C : Nat} {r c : Int} {q : Int × Int}
    (h : q ∈ neighbors R C r c) : inBounds R C q.1 q.2 = true := by
  unfold neighbors at h
  exact (List.mem_filter.mp h).2

theorem length_neighbors_le {R C : Nat} (r c : Int) :
    (neighbors R C r c).length ≤ 8 := by
  unfold neighbors
  calc ((deltas.map (fun d => (r + d.1, c + d.2))).filter
        (fun p => inBounds R C p.1 p.2)).length
      ≤ (deltas.map (fun d => (r + d.1, c + d.2))).length := List.length_filter_le _ _
    _ = 8 := by simp [deltas]

/-- In-bounds grid reads cannot fail on a well-shaped grid. -/
theorem pyGet2_ok_of_norms {α : Type} {g : Grid α} {R C : Nat} (hs : Shape g R C)
    {r c : Int} {i j : Nat} (hr : normIdx R r = some i) (hc : normIdx C c = some j) :
    ∃ v, pyGet2 g r c = .ok v ∧ natGet g i j = some v := by
  obtain ⟨v, hv⟩ := shape_natGet hs (normIdx_lt hr) (normIdx_lt hc)
  exact ⟨v, (pyGet2_shape_ok hs hr hc).mpr hv, hv⟩

theorem pyGet2_pySet2_self {α : Type} {g g' : Grid α} {r c : Int} {a : α}
    (h : pySet2 g r c a = .ok g') : pyGet2 g' r c = .ok a := by
  obtain ⟨i, row, j, hi, hrow, hj, rfl⟩ := pySet2_ok_iff.mp h
  have hilen : i < g.length := by
    rw [List.get?_eq_some] at hrow; exact hrow.1
  have hjlen : j < row.length := normIdx_lt hj
  apply pyGet2_ok_iff.mpr
  refine ⟨i, row.set j a, j, by simpa using hi, List.get?_set_eq_of_lt _ hilen, ?_, ?_⟩
  · simpa using hj
  · exact List.get?_set_eq_of_lt _ hjlen

theorem pyGet2_pySet2_ne {α : Type} {g g' : Grid α} {R C : Nat} (hs : Shape g R C)
    {p q : Int × Int} (hp : inBounds R C p.1 p.2 = true)
    (hq : inBounds R C q.1 q.2 = true) (hne : q ≠ p) {a : α}
    (h : pySet2 g p.1 p.2 a = .ok g') :
    pyGet2 g' q.1 q.2 = pyGet2 g q.1 q.2 := by
  obtain ⟨hpr, hpc⟩ := inBounds_normIdx hp
  obtain ⟨hqr, hqc⟩ := inBounds_normIdx hq
  have hs' : Shape g' R C := pySet2_shape hs h
  have hidx : ¬(q.1.toNat = p.1.toNat ∧ q.2.toNat = p.2.toNat) := by
    rintro ⟨h1, h2⟩
    apply hne
    have e1 := (inBounds_coe_toNat hp).1
    have e2 := (inBounds_coe_toNat hp).2
    have e3 := (inBounds_coe_toNat hq).1
    have e4 := (inBounds_coe_toNat hq).2
    have : q.1 = p.1 := by omega
    have : q.2 = p.2 := by omega
    exact Prod.ext (by omega) (by omega)
  have hng := natGet_pySet2 hs hpr hpc h q.1.toNat q.2.toNat
  rw [if_neg hidx] at hng
  cases hv : pyGet2 g q.1 q.2 with
  | ok v =>
    have := (pyGet2_shape_ok hs hqr hqc).mp hv
    exact (pyGet2_shape_ok hs' hqr hqc).mpr (hng ▸ this)
  | error e =>
    exfalso
    obtain ⟨v, hv', _⟩ := pyGet2_ok_of_norms hs hqr hqc
    rw [hv] at hv'
    exact absurd hv' (by simp)

/-! ## Counting lemmas for the cascade's termination measure -/

theorem countP_set_true_lt {l : List Bool} {j : Nat} (h : l.get? j = some false) :
    (l.set j true).countP (fun x => !x) < l.countP (fun x => !x) := by
  induction l generalizing j with
  | nil => simp at h
  | cons x xs ih =>
    cases j with
    | zero =>
      obtain rfl : x = false := by simpa using h
      simp [List.countP_cons]
    | succ j' =>
      have h' : xs.get? j' = some false := by simpa using h
      have := ih h'
      show (x :: xs.set j' true).countP (fun x => !x) < (x :: xs).countP (fun x => !x)
      simp only [List.countP_cons]
      omega

theorem unrevCount_set_lt {g : Grid Bool} {i j : Nat} {row : List Bool}
    (hrow : g.get? i = some row) (hj : row.get? j = some false) :
    unrevCount (g.set i (row.set j true)) < unrevCount g := by
  induction g generalizing i with
  | nil => simp at hrow
  | cons r rs ih =>
    cases i with
    | zero =>
      obtain rfl : r = row := by simpa using hrow
      simp only [List.set_cons_zero, unrevCount, List.map_cons, List.sum_cons]
      have := countP_set_true_lt hj
      omega
    | succ i' =>
      have h' : rs.get? i' = some row := by simpa using hrow
      have := ih h'
      show unrevCount (r :: rs.set i' (row.set j true)) < unrevCount (r :: rs)
      simp only [unrevCount, List.map_cons, List.sum_cons] at *
      omega

/-! ## The cascade computes a reachability closure -/

/-- The closure computed by the `while stack:` loop over the fixed
revealed-state `rev`: the unrevealed cells of the initial stack, plus
everything obtained by repeatedly stepping from a reached zero-count
cell to an in-bounds neighbour that is unrevealed and unflagged. -/
inductive Reach (brd : Grid Int) (flg : Grid Bool) (R C : Nat) (rev : Grid Bool) :
    List (Int × Int) → Int × Int → Prop
  | here {st : List (Int × Int)} {p : Int × Int} :
      p ∈ st → pyGet2 rev p.1 p.2 = .ok false → Reach brd flg R C rev st p
  | step {st : List (Int × Int)} {p q : Int × Int} :
      Reach brd flg R C rev st p → pyGet2 brd p.1 p.2 = .ok 0 →
      q ∈ neighbors R C p.1 p.2 → pyGet2 rev q.1 q.2 = .ok false →
      pyGet2 flg q.1 q.2 = .ok false → Reach brd flg R C rev st q

theorem Reach_unrevealed {brd : Grid Int} {flg : Grid Bool} {R C : Nat}
    {rev : Grid Bool} {st : List (Int × Int)} {q : Int × Int}
    (h : Reach brd flg R C rev st q) : pyGet2 rev q.1 q.2 = .ok false := by
  cases h with
  | here _ h => exact h
  | step _ _ _ h _ => exact h

theorem Reach_not_nil {brd : Grid Int} {flg : Grid Bool} {R C : Nat}
    {rev : Grid Bool} {q : Int × Int} : ¬Reach brd flg R C rev [] q := by
  intro h
  generalize hst : ([] : List (Int × Int)) = st at h
  induction h with
  | here hmem _ => rw [← hst] at hmem; simp at hmem
  | step _ _ _ _ _ ih => exact ih

theorem Reach_mono_stack {brd : Grid Int} {flg : Grid Bool} {R C : Nat}
    {rev : Grid Bool} {st st' : List (Int × Int)} {q : Int × Int}
    (hsub : ∀ p, p ∈ st → p ∈ st') (h : Reach brd flg R C rev st q) :
    Reach brd flg R C rev st' q := by
  induction h with
  | here hmem hr => exact .here (hsub _ hmem) hr
  | step _ hz hn hr hf ih => exact .step ih hz hn hr hf

theorem Reach_cons_revealed {brd : Grid Int} {flg : Grid Bool} {R C : Nat}
    {rev : Grid Bool} {cr cc : Int} {rest : List (Int × Int)} {q : Int × Int}
    (hrc : pyGet2 rev cr cc = .ok true) :
    Reach brd flg R C rev ((cr, cc) :: rest) q ↔ Reach brd flg R C rev rest q := by
  constructor
  · intro h
    induction h with
    | here hmem hr =>
      rcases List.mem_cons.mp hmem with rfl | hmem'
      · exact absurd (hrc.symm.trans hr) (by simp)
      · exact .here hmem' hr
    | step _ hz hn hr hf ih => exact .step ih hz hn hr hf
  · exact Reach_mono_stack (fun p hp => List.mem_cons_of_mem _ hp)

theorem Reach_inBounds {brd : Grid Int} {flg : Grid Bool} {R C : Nat}
    {rev : Grid Bool} {st : List (Int × Int)} {q : Int × Int}
    (hst : ∀ p ∈ st, inBounds R C p.1 p.2 = true)
    (h : Reach brd flg R C rev st q) : inBounds R C q.1 q.2 = true := by
  induction h with
  | here hmem _ => exact hst _ hmem
  | step _ _ hn _ _ _ => exact mem_neighbors_inBounds hn

theorem Reach_unflagged {brd : Grid Int} {flg : Grid Bool} {R C : Nat}
    {rev : Grid Bool} {st : List (Int × Int)} {q : Int × Int}
    (hst : ∀ p ∈ st, pyGet2 flg p.1 p.2 = .ok false)
    (h : Reach brd flg R C rev st q) : pyGet2 flg q.1 q.2 = .ok false := by
  cases h with
  | here hmem _ => exact hst _ hmem
  | step _ _ _ _ hf => exact hf

theorem mem_pushList {flg : Grid Bool} {R C : Nat} {rev' : Grid Bool}
    {cr cc v : Int} {q : Int × Int} :
    q ∈ pushList flg R C rev' cr cc v ↔
      v = 0 ∧ q ∈ neighbors R C cr cc ∧
      pyGet2 rev' q.1 q.2 = .ok false ∧ pyGet2 flg q.1 q.2 = .ok false := by
  unfold pushList
  by_cases hv : v = 0
  · subst hv
    simp [List.mem_filter, and_assoc]
  · simp [hv]

/-- The key exchange step: revealing the popped cell `(cr, cc)` and
replacing it by its pushed neighbours preserves `revealed ∪ reach`. -/
theorem Reach_set_step {brd : Grid Int} {flg : Grid Bool} {R C : Nat}
    {rev rev' : Grid Bool} {cr cc v : Int} {rest : List (Int × Int)}
    (hs : Shape rev R C)
    (hcr : inBounds R C cr cc = true)
    (hrest : ∀ p ∈ rest, inBounds R C p.1 p.2 = true)
    (hget : pyGet2 rev cr cc = .ok false)
    (hset : pySet2 rev cr cc true = .ok rev')
    (hbrd : pyGet2 brd cr cc = .ok v) :
    ∀ q : Int × Int, inBounds R C q.1 q.2 = true →
      ((pyGet2 rev' q.1 q.2 = .ok true ∨
        Reach brd flg R C rev' ((pushList flg R C rev' cr cc v).reverse ++ rest) q) ↔
       (pyGet2 rev q.1 q.2 = .ok true ∨
        Reach brd flg R C rev ((cr, cc) :: rest) q)) := by
  have hself : pyGet2 rev' cr cc = .ok true := pyGet2_pySet2_self hset
  have hother : ∀ q : Int × Int, inBounds R C q.1 q.2 = true → q ≠ (cr, cc) →
      pyGet2 rev' q.1 q.2 = pyGet2 rev q.1 q.2 := by
    intro q hq hne
    exact pyGet2_pySet2_ne hs hcr hq hne hset
  have hstackB : ∀ p ∈ (pushList flg R C rev' cr cc v).reverse ++ rest,
      inBounds R C p.1 p.2 = true := by
    intro p hp
    rcases List.mem_append.mp hp with hp' | hp'
    · exact mem_neighbors_inBounds (mem_pushList.mp (List.mem_reverse.mp hp')).2.1
    · exact hrest p hp'
  have hconsB : ∀ p ∈ (cr, cc) :: rest, inBounds R C p.1 p.2 = true := by
    intro p hp
    rcases List.mem_cons.mp hp with rfl | hp'
    · exact hcr
    · exact hrest _ hp'
  have fwd : ∀ q : Int × Int,
      Reach brd flg R C rev' ((pushList flg R C rev' cr cc v).reverse ++ rest) q →
      pyGet2 rev q.1 q.2 = .ok true ∨ Reach brd flg R C rev ((cr, cc) :: rest) q := by
    intro q h
    induction h with
    | here hmem hr =>
      rename_i p
      by_cases hqc : p = (cr, cc)
      · subst hqc
        exact absurd (hself.symm.trans hr) (by simp)
      · have hpB : inBounds R C p.1 p.2 = true := hstackB _ hmem
        have hr' : pyGet2 rev p.1 p.2 = .ok false := (hother p hpB hqc) ▸ hr
        rcases List.mem_append.mp hmem with hp' | hp'
        · obtain ⟨hv0, hn, _, hf⟩ := mem_pushList.mp (List.mem_reverse.mp hp')
          subst hv0
          exact Or.inr (.step (.here (List.mem_cons_self _ _) hget) hbrd hn hr' hf)
        · exact Or.inr (.here (List.mem_cons_of_mem _ hp') hr')
    | step hp hz hn hr hf ih =>
      rename_i p q'
      have hq'B : inBounds R C q'.1 q'.2 = true := mem_neighbors_inBounds hn
      by_cases hqc : q' = (cr, cc)
      · subst hqc
        exact absurd (hself.symm.trans hr) (by simp)
      · have hr' : pyGet2 rev q'.1 q'.2 = .ok false := (hother q' hq'B hqc) ▸ hr
        rcases ih with hrevp | hreachp
        · exfalso
          have hpB : inBounds R C p.1 p.2 = true := Reach_inBounds hstackB hp
          by_cases hpc : p = (cr, cc)
          · subst hpc
            exact absurd (hget.symm.trans hrevp) (by simp)
          · exact absurd ((Reach_unrevealed hp).symm.trans
              ((hother p hpB hpc).trans hrevp)) (by simp)
        · exact Or.inr (.step hreachp hz hn hr' hf)
  have bwd : ∀ q : Int × Int, Reach brd flg R C rev ((cr, cc) :: rest) q →
      pyGet2 rev' q.1 q.2 = .ok true ∨
      Reach brd flg R C rev' ((pushList flg R C rev' cr cc v).reverse ++ rest) q := by
    intro q h
    induction h with
    | here hmem hr =>
      rename_i p
      rcases List.mem_cons.mp hmem with rfl | hmem'
      · exact Or.inl hself
      · by_cases hqc : p = (cr, cc)
        · subst hqc
          exact Or.inl hself
        · have hpB : inBounds R C p.1 p.2 = true := hrest _ hmem'
          have hr' : pyGet2 rev' p.1 p.2 = .ok false := (hother p hpB hqc).symm ▸ hr
          exact Or.inr (.here (List.mem_append.mpr (Or.inr hmem')) hr')
    | step hp hz hn hr hf ih =>
      rename_i p q'
      have hq'B : inBounds R C q'.1 q'.2 = true := mem_neighbors_inBounds hn
      by_cases hqc : q' = (cr, cc)
      · subst hqc
        exact Or.inl hself
      · have hr' : pyGet2 rev' q'.1 q'.2 = .ok false := (hother q' hq'B hqc).symm ▸ hr
        rcases ih with hrevp | hreachp
        · have hpB : inBounds R C p.1 p.2 = true := Reach_inBounds hconsB hp
          by_cases hpc : p = (cr, cc)
          · subst hpc
            obtain rfl : v = 0 := by
              have hz' : pyGet2 brd cr cc = Except.ok 0 := hz
              rw [hz'] at hbrd
              injection hbrd with h2
              exact h2.symm
            refine Or.inr (.here (List.mem_append.mpr (Or.inl ?_)) hr')
            exact List.mem_reverse.mpr (mem_pushList.mpr ⟨rfl, hn, hr', hf⟩)
          · exact absurd ((Reach_unrevealed hp).symm.trans
              ((hother p hpB hpc).symm.trans hrevp)) (by simp)
        · exact Or.inr (.step hreachp hz hn hr' hf)
  intro q hq
  constructor
  · rintro (h | h)
    · by_cases hqc : q = (cr, cc)
      · subst hqc
        exact Or.inr (.here (List.mem_cons_self _ _) hget)
      · exact Or.inl ((hother q hq hqc) ▸ h)
    · exact fwd q h
  · rintro (h | h)
    · have hqc : q ≠ (cr, cc) := by
        rintro rfl
        exact absurd (hget.symm.trans h) (by simp)
      exact Or.inl ((hother q hq hqc).symm ▸ h)
    · exact bwd q h

theorem cascadeF_shape {brd : Grid Int} {flg : Grid Bool} {R C : Nat} :
    ∀ (fuel : Nat) (rev : Grid Bool) (st : List (Int × Int)) (rev'' : Grid Bool),
      Shape rev R C → cascadeF brd flg R C fuel rev st = .ok rev'' →
      Shape rev'' R C := by
  intro fuel
  induction fuel with
  | zero =>
    intro rev st rev'' hs h
    cases st with
    | nil =>
      obtain rfl : rev = rev'' := by
        simp only [cascadeF] at h
        exact Except.ok.inj h
      exact hs
    | cons hd rest => simp [cascadeF] at h
  | succ f ih =>
    intro rev st rev'' hs h
    cases st with
    | nil =>
      obtain rfl : rev = rev'' := by
        simp only [cascadeF] at h
        exact Except.ok.inj h
      exact hs
    | cons hd rest =>
      obtain ⟨cr, cc⟩ := hd
      simp only [cascadeF] at h
      cases hg : pyGet2 rev cr cc with
      | error e => rw [hg] at h; simp at h
      | ok bres =>
        rw [hg] at h
        cases bres with
        | true => exact ih rev rest rev'' hs h
        | false =>
          cases hset : pySet2 rev cr cc true with
          | error e => rw [hset] at h; simp at h
          | ok rev' =>
            rw [hset] at h
            cases hb : pyGet2 brd cr cc with
            | error e => rw [hb] at h; simp at h
            | ok v =>
              rw [hb] at h
              exact ih rev' _ rev'' (pySet2_shape hs hset) h

theorem cascadeF_closure {brd : Grid Int} {flg : Grid Bool} {R C : Nat} :
    ∀ (fuel : Nat) (rev : Grid Bool) (st : List (Int × Int)) (rev'' : Grid Bool),
      Shape rev R C → (∀ p ∈ st, inBounds R C p.1 p.2 = true) →
      cascadeF brd flg R C fuel rev st = .ok rev'' →
      ∀ q : Int × Int, inBounds R C q.1 q.2 = true →
        (pyGet2 rev'' q.1 q.2 = .ok true ↔
          pyGet2 rev q.1 q.2 = .ok true ∨ Reach brd flg R C rev st q) := by
  intro fuel
  induction fuel with
  | zero =>
    intro rev st rev'' hs hst h q hq
    cases st with
    | nil =>
      obtain rfl : rev = rev'' := by
        simp only [cascadeF] at h
        exact Except.ok.inj h
      constructor
      · exact Or.inl
      · rintro (h' | h')
        · exact h'
        · exact absurd h' Reach_not_nil
    | cons hd rest => simp [cascadeF] at h
  | succ f ih =>
    intro rev st rev'' hs hst h q hq
    cases st with
    | nil =>
      obtain rfl : rev = rev'' := by
        simp only [cascadeF] at h
        exact Except.ok.inj h
      constructor
      · exact Or.inl
      · rintro (h' | h')
        · exact h'
        · exact absurd h' Reach_not_nil
    | cons hd rest =>
      obtain ⟨cr, cc⟩ := hd
      have hcr : inBounds R C cr cc = true := hst _ (List.mem_cons_self _ _)
      have hrest : ∀ p ∈ rest, inBounds R C p.1 p.2 = true :=
        fun p hp => hst p (List.mem_cons_of_mem _ hp)
      simp only [cascadeF] at h
      cases hg : pyGet2 rev cr cc with
      | error e => rw [hg] at h; simp at h
      | ok bres =>
        rw [hg] at h
        cases bres with
        | true =>
          rw [ih rev rest rev'' hs hrest h q hq]
          rw [Reach_cons_revealed hg]
        | false =>
          cases hset : pySet2 rev cr cc true with
          | error e => rw [hset] at h; simp at h
          | ok rev' =>
            rw [hset] at h
            cases hb : pyGet2 brd cr cc with
            | error e => rw [hb] at h; simp at h
            | ok v =>
              rw [hb] at h
              have hstack' : ∀ p ∈ (pushList flg R C rev' cr cc v).reverse ++ rest,
                  inBounds R C p.1 p.2 = true := by
                intro p hp
                rcases List.mem_append.mp hp with hp' | hp'
                · exact mem_neighbors_inBounds (mem_pushList.mp (List.mem_reverse.mp hp')).2.1
                · exact hrest p hp'
              rw [ih rev' _ rev'' (pySet2_shape hs hset) hstack' h q hq]
              exact Reach_set_step hs hcr hrest hg hset hb q hq

theorem length_pushList_le {flg : Grid Bool} {R C : Nat} {rev' : Grid Bool}
    {cr cc v : Int} : (pushList flg R C rev' cr cc v).length ≤ 8 := by
  unfold pushList
  split
  · exact le_trans (List.length_filter_le _ _) (length_neighbors_le cr cc)
  · simp

theorem unrevCount_pySet2_lt {rev rev' : Grid Bool} {cr cc : Int}
    (hg : pyGet2 rev cr cc = .ok false) (hset : pySet2 rev cr cc true = .ok rev') :
    unrevCount rev' < unrevCount rev := by
  obtain ⟨i, row, j, hi, hrow, hj, hv⟩ := pyGet2_ok_iff.mp hg
  obtain ⟨i', row', j', hi', hrow', hj', rfl⟩ := pySet2_ok_iff.mp hset
  rw [hi] at hi'
  obtain rfl : i = i' := Option.some_inj.mp hi'
  rw [hrow] at hrow'
  obtain rfl : row = row' := Option.some_inj.mp hrow'
  rw [hj] at hj'
  obtain rfl : j = j' := Option.some_inj.mp hj'
  exact unrevCount_set_lt hrow hv

theorem cascadeF_ok {brd : Grid Int} {flg : Grid Bool} {R C : Nat} :
    ∀ (fuel : Nat) (rev : Grid Bool) (st : List (Int × Int)),
      Shape rev R C → Shape brd R C →
      (∀ p ∈ st, (normIdx R p.1).isSome ∧ (normIdx C p.2).isSome) →
      9 * unrevCount rev + st.length < fuel →
      ∃ rev'', cascadeF brd flg R C fuel rev st = .ok rev'' := by
  intro fuel
  induction fuel with
  | zero =>
    intro rev st hs hb hstack hlt
    exact absurd hlt (by omega)
  | succ f ih =>
    intro rev st hs hb hstack hlt
    cases st with
    | nil => exact ⟨rev, rfl⟩
    | cons hd rest =>
      obtain ⟨cr, cc⟩ := hd
      obtain ⟨hisR, hisC⟩ := hstack _ (List.mem_cons_self _ _)
      obtain ⟨i0, hi0⟩ := Option.isSome_iff_exists.mp hisR
      obtain ⟨j0, hj0⟩ := Option.isSome_iff_exists.mp hisC
      obtain ⟨bres, hg, _⟩ := pyGet2_ok_of_norms hs hi0 hj0
      have hrest : ∀ p ∈ rest, (normIdx R p.1).isSome ∧ (normIdx C p.2).isSome :=
        fun p hp => hstack p (List.mem_cons_of_mem _ hp)
      cases bres with
      | true =>
        obtain ⟨rev'', h''⟩ := ih rev rest hs hb hrest (by
          simp only [List.length_cons] at hlt
          omega)
        refine ⟨rev'', ?_⟩
        simp only [cascadeF]
        rw [hg]
        exact h''
      | false =>
        obtain ⟨rev', hset⟩ := pySet2_exists_of_pyGet2 hg true
        obtain ⟨v, hbv, _⟩ := pyGet2_ok_of_norms hb hi0 hj0
        have hs' : Shape rev' R C := pySet2_shape hs hset
        have hlt' : unrevCount rev' < unrevCount rev := unrevCount_pySet2_lt hg hset
        have hstack' : ∀ p ∈ (pushList flg R C rev' cr cc v).reverse ++ rest,
            (normIdx R p.1).isSome ∧ (normIdx C p.2).isSome := by
          intro p hp
          rcases List.mem_append.mp hp with hp' | hp'
          · have hpB := mem_neighbors_inBounds (mem_pushList.mp (List.mem_reverse.mp hp')).2.1
            obtain ⟨h1, h2⟩ := inBounds_normIdx hpB
            exact ⟨by simp [h1], by simp [h2]⟩
          · exact hrest p hp'
        obtain ⟨rev'', h''⟩ := ih rev' _ hs' hb hstack' (by
          have hlen : ((pushList flg R C rev' cr cc v).reverse ++ rest).length ≤ 8 + rest.length := by
            simp only [List.length_append, List.length_reverse]
            have := @length_pushList_le flg R C rev' cr cc v
            omega
          simp only [List.length_cons] at hlt
          omega)
        refine ⟨rev'', ?_⟩
        simp only [cascadeF]
        rw [hg, hset, hbv]
        exact h''

/-! ## Characterisation of mine placement -/

theorem py_bind_ok {α β : Type} (a : α) (f : α → Py β) :
    (Except.ok a >>= f : Py β) = f a := rfl

theorem mem_intCells {R C : Nat} {p : Int × Int}
    (h : p ∈ (cellList R C).map (fun p => ((p.1 : Int), (p.2 : Int)))) :
    inBounds R C p.1 p.2 = true := by
  obtain ⟨q, hq, rfl⟩ := List.mem_map.mp h
  obtain ⟨h1, h2⟩ := mem_cellList.mp hq
  show inBounds R C (q.1 : Int) (q.2 : Int) = true
  rw [inBounds_iff]
  refine ⟨by positivity, by exact_mod_cast h1, by positivity, by exact_mod_cast h2⟩

theorem minesFold_spec {R C : Nat} :
    ∀ (s : List (Int × Int)) (g : Grid Int), Shape g R C →
      (∀ p ∈ s, inBounds R C p.1 p.2 = true) →
      ∃ g', s.foldlM (fun g p => pySet2 g p.1 p.2 MINE) g = .ok g' ∧ Shape g' R C ∧
        ∀ i j : Nat, natGet g' i j =
          if ((i : Int), (j : Int)) ∈ s then some MINE else natGet g i j := by
  intro s
  induction s with
  | nil =>
    intro g hs _
    exact ⟨g, rfl, hs, by simp⟩
  | cons p s' ih =>
    intro g hs hB
    have hpB : inBounds R C p.1 p.2 = true := hB _ (List.mem_cons_self _ _)
    obtain ⟨hr, hc⟩ := inBounds_normIdx hpB
    obtain ⟨v0, hget, _⟩ := pyGet2_ok_of_norms hs hr hc
    obtain ⟨g1, hset⟩ := pySet2_exists_of_pyGet2 hget MINE
    have hs1 : Shape g1 R C := pySet2_shape hs hset
    have hg1 : ∀ i j : Nat, natGet g1 i j =
        if i = p.1.toNat ∧ j = p.2.toNat then some MINE else natGet g i j :=
      natGet_pySet2 hs hr hc hset
    obtain ⟨g', hfold, hs', hval⟩ := ih g1 hs1 (fun q hq => hB q (List.mem_cons_of_mem _ hq))
    refine ⟨g', ?_, hs', ?_⟩
    · rw [List.foldlM_cons, hset, py_bind_ok]
      exact hfold
    · intro i j
      rw [hval i j, hg1 i j]
      have hiff : (((i : Int), (j : Int)) = p) ↔ (i = p.1.toNat ∧ j = p.2.toNat) := by
        obtain ⟨e1, e2⟩ := inBounds_coe_toNat hpB
        constructor
        · rintro rfl
          simp
        · rintro ⟨rfl, rfl⟩
          exact Prod.ext e1 e2
      by_cases hin : ((i : Int), (j : Int)) ∈ s'
      · rw [if_pos hin, if_pos (List.mem_cons.mpr (Or.inr hin))]
      · rw [if_neg hin]
        by_cases heq : ((i : Int), (j : Int)) = p
        · rw [if_pos (hiff.mp heq), if_pos (List.mem_cons.mpr (Or.inl heq))]
        · rw [if_neg (hiff.not.mp heq), if_neg (by
            intro hmem
            rcases List.mem_cons.mp hmem with h' | h'
            · exact heq h'
            · exact hin h')]

theorem countFold_spec {R C : Nat} (sample : List (Int × Int)) :
    ∀ (rest : List (Nat × Nat)) (g : Grid Int), Shape g R C →
      rest.Nodup → (∀ p ∈ rest, p.1 < R ∧ p.2 < C) →
      ∃ g', rest.foldlM (fun g p => do
          let v ← pyGet2 g (p.1 : Int) (p.2 : Int)
          if v = MINE then pure g
          else (pySet2 g (p.1 : Int) (p.2 : Int)
            (((neighbors R C (p.1 : Int) (p.2 : Int)).countP
              (fun q => decide (q ∈ sample)) : Nat) : Int))) g = .ok g' ∧ Shape g' R C ∧
        ∀ i j : Nat, natGet g' i j =
          if (i, j) ∈ rest then
            (if natGet g i j = some MINE then some MINE
             else some (((neighbors R C (i : Int) (j : Int)).countP
               (fun q => decide (q ∈ sample)) : Nat) : Int))
          else natGet g i j := by
  intro rest
  induction rest with
  | nil =>
    intro g hs _ _
    exact ⟨g, rfl, hs, by simp⟩
  | cons p rest' ih =>
    intro g hs hnd hB
    obtain ⟨hp1, hp2⟩ := hB _ (List.mem_cons_self _ _)
    have hpnotin : p ∉ rest' := (List.nodup_cons.mp hnd).1
    have hnd' : rest'.Nodup := (List.nodup_cons.mp hnd).2
    have hB' : ∀ q ∈ rest', q.1 < R ∧ q.2 < C := fun q hq => hB q (List.mem_cons_of_mem _ hq)
    obtain ⟨v0, hv0⟩ := shape_natGet hs hp1 hp2
    have hget : pyGet2 g (p.1 : Int) (p.2 : Int) = .ok v0 := (pyGet2_coe hs hp1 hp2).mpr hv0
    by_cases hmv : v0 = MINE
    · obtain ⟨g', hfold, hs', hval⟩ := ih g hs hnd' hB'
      refine ⟨g', ?_, hs', ?_⟩
      · rw [List.foldlM_cons, hget]
        simp only [py_bind_ok]
        rw [if_pos hmv]
        exact hfold
      · intro i j
        rw [hval i j]
        by_cases hin : (i, j) ∈ rest'
        · rw [if_pos hin, if_pos (List.mem_cons.mpr (Or.inr hin))]
        · rw [if_neg hin]
          by_cases heq : (i, j) = p
          · have h1 : i = p.1 := congrArg Prod.fst heq
            have h2 : j = p.2 := congrArg Prod.snd heq
            subst h1
            subst h2
            rw [if_pos (List.mem_cons.mpr (Or.inl heq)), hv0, hmv, if_pos rfl]
          · rw [if_neg (fun hmem => by
              rcases List.mem_cons.mp hmem with h' | h'
              · exact heq h'
              · exact hin h')]
    · obtain ⟨g1, hset⟩ := pySet2_exists_of_pyGet2 hget
        (((neighbors R C (p.1 : Int) (p.2 : Int)).countP
          (fun q => decide (q ∈ sample)) : Nat) : Int)
      have hs1 : Shape g1 R C := pySet2_shape hs hset
      have hg1 : ∀ i j : Nat, natGet g1 i j =
          if i = p.1 ∧ j = p.2 then
            some (((neighbors R C (p.1 : Int) (p.2 : Int)).countP
              (fun q => decide (q ∈ sample)) : Nat) : Int)
          else natGet g i j :=
        natGet_pySet2 hs (normIdx_coe hp1) (normIdx_coe hp2) hset
      obtain ⟨g', hfold, hs', hval⟩ := ih g1 hs1 hnd' hB'
      refine ⟨g', ?_, hs', ?_⟩
      · rw [List.foldlM_cons, hget]
        simp only [py_bind_ok]
        rw [if_neg hmv, hset]
        simp only [py_bind_ok]
        exact hfold
      · intro i j
        rw [hval i j, hg1 i j]
        by_cases hin : (i, j) ∈ rest'
        · have hne : ¬(i = p.1 ∧ j = p.2) := by
            rintro ⟨rfl, rfl⟩
            exact hpnotin (by simpa using hin)
          rw [if_pos hin, if_pos (List.mem_cons.mpr (Or.inr hin)), if_neg hne]
        · rw [if_neg hin]
          by_cases heq : (i, j) = p
          · have h1 : i = p.1 := congrArg Prod.fst heq
            have h2 : j = p.2 := congrArg Prod.snd heq
            subst h1
            subst h2
            rw [if_pos ⟨rfl, rfl⟩, if_pos (List.mem_cons.mpr (Or.inl heq)), hv0,
              if_neg (fun hh => hmv (Option.some_inj.mp hh))]
          · have hne : ¬(i = p.1 ∧ j = p.2) := by
              rintro ⟨h1, h2⟩
              exact heq (Prod.ext h1 h2)
            rw [if_neg hne, if_neg (fun hmem => by
              rcases List.mem_cons.mp hmem with h' | h'
              · exact heq h'
              · exact hin h')]

/-- The list that `random.sample` draws from in `place_mines`:
all cells minus the safe zone of `(sr, sc)`. -/
def availableCells (R C : Nat) (sr sc : Int) : List (Int × Int) :=
  ((cellList R C).map (fun p => ((p.1 : Int), (p.2 : Int)))).filter
    (fun p => decide (p ∉ (sr, sc) :: neighbors R C sr sc))

theorem place_mines_spec {b : Board} {sr sc : Int} {sample : List (Int × Int)} {b' : Board}
    (hs : Shape b.board b.rows b.cols)
    (h : b.place_mines sr sc sample = .ok b') :
    sampleOk (availableCells b.rows b.cols sr sc) b.mines_count sample ∧
    b'.mines = sample ∧ b'.placed = true ∧
    b'.rows = b.rows ∧ b'.cols = b.cols ∧ b'.mines_count = b.mines_count ∧
    b'.revealed = b.revealed ∧ b'.flagged = b.flagged ∧
    b'.game_over = b.game_over ∧ b'.victory = b.victory ∧
    Shape b'.board b.rows b.cols ∧
    (∀ i j : Nat, i < b.rows → j < b.cols →
      natGet b'.board i j =
        if ((i : Int), (j : Int)) ∈ sample then some MINE
        else if natGet b.board i j = some MINE then some MINE
        else some (((neighbors b.rows b.cols (i : Int) (j : Int)).countP
          (fun q => decide (q ∈ sample)) : Nat) : Int)) := by
  simp only [Board.place_mines] at h
  split at h
  · rename_i hOK
    have hOK' : sampleOk (availableCells b.rows b.cols sr sc) b.mines_count sample := hOK
    have hmB : ∀ p ∈ sample, inBounds b.rows b.cols p.1 p.2 = true := by
      intro p hp
      exact mem_intCells (List.mem_filter.mp (hOK'.2.2 p hp)).1
    obtain ⟨g1, hfold1, hs1, hval1⟩ := minesFold_spec sample b.board hs hmB
    rw [hfold1] at h
    simp only [py_bind_ok] at h
    obtain ⟨g2, hfold2, hs2, hval2⟩ := countFold_spec sample (cellList b.rows b.cols) g1 hs1
      (nodup_cellList _ _) (fun p hp => mem_cellList.mp hp)
    rw [hfold2] at h
    simp only [py_bind_ok] at h
    obtain rfl : ({ b with mines := sample, board := g2, placed := true } : Board) = b' :=
      Except.ok.inj h
    refine ⟨hOK', rfl, rfl, rfl, rfl, rfl, rfl, rfl, rfl, rfl, hs2, ?_⟩
    intro i j hi hj
    show natGet g2 i j = _
    rw [hval2 i j, if_pos (mem_cellList.mpr ⟨hi, hj⟩), hval1 i j]
    by_cases hmem : ((i : Int), (j : Int)) ∈ sample
    · rw [if_pos hmem, if_pos hmem, if_pos rfl]
    · rw [if_neg hmem, if_neg hmem]
  · exact absurd h (by simp)

/-! ## Execution-path analysis of `reveal` and `toggle_flag` -/

theorem py_bind_error {α β : Type} (e : PyErr) (f : α → Py β) :
    (Except.error e >>= f : Py β) = Except.error e := rfl

theorem py_pure_bind {α β : Type} (a : α) (f : α → Py β) :
    (pure a >>= f : Py β) = f a := rfl

/-- Every successful `reveal` call followed one of the execution paths of
the Python function. -/
theorem reveal_cases {b : Board} {r c : Int} {sample : List (Int × Int)} {b' : Board}
    (h : b.reveal r c sample = .ok b') :
    (b.game_over = true ∧ b' = b) ∨
    (b.game_over = false ∧ pyGet2 b.flagged r c = .ok true ∧ b' = b) ∨
    (b.game_over = false ∧ pyGet2 b.flagged r c = .ok false ∧
      pyGet2 b.revealed r c = .ok true ∧ b' = b) ∨
    (b.game_over = false ∧ pyGet2 b.flagged r c = .ok false ∧
      pyGet2 b.revealed r c = .ok false ∧
      ∃ b1, ((b.placed = true ∧ b1 = b) ∨
             (b.placed = false ∧ b.place_mines r c sample = .ok b1)) ∧
        (((r, c) ∈ b1.mines ∧
           ∃ rev, pySet2 b1.revealed r c true = .ok rev ∧
             b' = { b1 with revealed := rev, game_over := true, victory := false }) ∨
         ((r, c) ∉ b1.mines ∧
           ∃ rev, cascadeF b1.board b1.flagged b1.rows b1.cols
               (9 * unrevCount b1.revealed + 2) b1.revealed [(r, c)] = .ok rev ∧
             b' = Board.check_victory { b1 with revealed := rev }))) := by
  unfold Board.reveal at h
  by_cases hgo : b.game_over
  · rw [if_pos hgo] at h
    exact Or.inl ⟨hgo, (Except.ok.inj h).symm⟩
  · rw [if_neg hgo] at h
    rw [Bool.not_eq_true] at hgo
    cases hf : pyGet2 b.flagged r c with
    | error e => rw [hf, py_bind_error] at h; simp at h
    | ok f =>
      rw [hf] at h
      simp only [py_bind_ok] at h
      cases f with
      | true =>
        rw [if_pos rfl] at h
        exact Or.inr (Or.inl ⟨hgo, rfl, (Except.ok.inj h).symm⟩)
      | false =>
        rw [if_neg (by simp)] at h
        cases hv : pyGet2 b.revealed r c with
        | error e => rw [hv, py_bind_error] at h; simp at h
        | ok v =>
          rw [hv] at h
          simp only [py_bind_ok] at h
          cases v with
          | true =>
            rw [if_pos rfl] at h
            exact Or.inr (Or.inr (Or.inl ⟨hgo, rfl, rfl, (Except.ok.inj h).symm⟩))
          | false =>
            rw [if_neg (by simp)] at h
            refine Or.inr (Or.inr (Or.inr ⟨hgo, rfl, rfl, ?_⟩))
            cases hpl : b.placed with
            | true =>
              rw [hpl, if_pos rfl] at h
              simp only [py_pure_bind] at h
              refine ⟨b, Or.inl ⟨rfl, rfl⟩, ?_⟩
              by_cases hm : (r, c) ∈ b.mines
              · rw [if_pos hm] at h
                cases hset : pySet2 b.revealed r c true with
                | error e => rw [hset, py_bind_error] at h; simp at h
                | ok rev =>
                  rw [hset] at h
                  simp only [py_bind_ok] at h
                  exact Or.inl ⟨hm, rev, rfl, (Except.ok.inj h).symm⟩
              · rw [if_neg hm] at h
                cases hcas : cascadeF b.board b.flagged b.rows b.cols
                    (9 * unrevCount b.revealed + 2) b.revealed [(r, c)] with
                | error e => rw [hcas, py_bind_error] at h; simp at h
                | ok rev =>
                  rw [hcas] at h
                  simp only [py_bind_ok] at h
                  exact Or.inr ⟨hm, rev, rfl, (Except.ok.inj h).symm⟩
            | false =>
              rw [hpl, if_neg (by simp)] at h
              cases hpm : b.place_mines r c sample with
              | error e => rw [hpm, py_bind_error] at h; simp at h
              | ok b1 =>
                rw [hpm] at h
                simp only [py_bind_ok] at h
                refine ⟨b1, Or.inr ⟨rfl, rfl⟩, ?_⟩
                by_cases hm : (r, c) ∈ b1.mines
                · rw [if_pos hm] at h
                  cases hset : pySet2 b1.revealed r c true with
                  | error e => rw [hset, py_bind_error] at h; simp at h
                  | ok rev =>
                    rw [hset] at h
                    simp only [py_bind_ok] at h
                    exact Or.inl ⟨hm, rev, rfl, (Except.ok.inj h).symm⟩
                · rw [if_neg hm] at h
                  cases hcas : cascadeF b1.board b1.flagged b1.rows b1.cols
                      (9 * unrevCount b1.revealed + 2) b1.revealed [(r, c)] with
                  | error e => rw [hcas, py_bind_error] at h; simp at h
                  | ok rev =>
                    rw [hcas] at h
                    simp only [py_bind_ok] at h
                    exact Or.inr ⟨hm, rev, rfl, (Except.ok.inj h).symm⟩

/-- Every successful `toggle_flag` call followed one of the execution
paths of the Python function. -/
theorem toggle_cases {b : Board} {r c : Int} {b' : Board}
    (h : b.toggle_flag r c = .ok b') :
    (b.game_over = true ∧ b' = b) ∨
    (b.game_over = false ∧ pyGet2 b.revealed r c = .ok true ∧ b' = b) ∨
    (b.game_over = false ∧ pyGet2 b.revealed r c = .ok false ∧
      ∃ f flg, pyGet2 b.flagged r c = .ok f ∧ pySet2 b.flagged r c (!f) = .ok flg ∧
        b' = Board.check_victory { b with flagged := flg }) := by
  unfold Board.toggle_flag at h
  by_cases hgo : b.game_over
  · rw [if_pos hgo] at h
    exact Or.inl ⟨hgo, (Except.ok.inj h).symm⟩
  · rw [if_neg hgo] at h
    rw [Bool.not_eq_true] at hgo
    cases hv : pyGet2 b.revealed r c with
    | error e => rw [hv, py_bind_error] at h; simp at h
    | ok v =>
      rw [hv] at h
      simp only [py_bind_ok] at h
      cases v with
      | true =>
        rw [if_pos rfl] at h
        exact Or.inr (Or.inl ⟨hgo, rfl, (Except.ok.inj h).symm⟩)
      | false =>
        rw [if_neg (by simp)] at h
        cases hf : pyGet2 b.flagged r c with
        | error e => rw [hf, py_bind_error] at h; simp at h
        | ok f =>
          rw [hf] at h
          simp only [py_bind_ok] at h
          cases hset : pySet2 b.flagged r c (!f) with
          | error e => rw [hset, py_bind_error] at h; simp at h
          | ok flg =>
            rw [hset] at h
            simp only [py_bind_ok] at h
            exact Or.inr (Or.inr ⟨hgo, rfl, f, flg, rfl, hset, (Except.ok.inj h).symm⟩)

/-! ## Invariants of reachable boards -/

/-- `rows*cols - mines_count` as the Python integer that
`check_victory` compares against. -/
def targetInt (b : Board) : Int :=
  (b.rows : Int) * (b.cols : Int) - (b.mines_count : Int)

/-- The revealed-cell count as a Python integer. -/
def countInt (b : Board) : Int := (revealedCount b : Int)

theorem pyGet2_ok_norms {α : Type} {g : Grid α} {R C : Nat} (hs : Shape g R C)
    {r c : Int} {v : α} (h : pyGet2 g r c = .ok v) :
    ∃ i j, normIdx R r = some i ∧ normIdx C c = some j ∧ natGet g i j = some v := by
  obtain ⟨i, row, j, hi, hrow, hj, hv⟩ := pyGet2_ok_iff.mp h
  refine ⟨i, j, hs.1 ▸ hi, (shape_row hs hrow) ▸ hj, ?_⟩
  rw [natGet_eq g i j hrow]
  exact hv

/-- Cells newly revealed by the cascade are never flagged (the stack only
ever contains unflagged cells). -/
theorem cascadeF_unflagged {brd : Grid Int} {flg : Grid Bool} {R C : Nat} :
    ∀ (fuel : Nat) (rev : Grid Bool) (st : List (Int × Int)) (rev'' : Grid Bool),
      Shape rev R C → Shape flg R C →
      (∀ p ∈ st, pyGet2 flg p.1 p.2 = .ok false) →
      cascadeF brd flg R C fuel rev st = .ok rev'' →
      ∀ i j : Nat, natGet rev'' i j = some true →
        natGet rev i j = some true ∨ natGet flg i j = some false := by
  intro fuel
  induction fuel with
  | zero =>
    intro rev st rev'' hs hsf hst h i j hij
    cases st with
    | nil =>
      obtain rfl : rev = rev'' := by
        simp only [cascadeF] at h
        exact Except.ok.inj h
      exact Or.inl hij
    | cons hd rest => simp [cascadeF] at h
  | succ f ih =>
    intro rev st rev'' hs hsf hst h i j hij
    cases st with
    | nil =>
      obtain rfl : rev = rev'' := by
        simp only [cascadeF] at h
        exact Except.ok.inj h
      exact Or.inl hij
    | cons hd rest =>
      obtain ⟨cr, cc⟩ := hd
      have hfl : pyGet2 flg cr cc = .ok false := hst _ (List.mem_cons_self _ _)
      have hrest : ∀ p ∈ rest, pyGet2 flg p.1 p.2 = .ok false :=
        fun p hp => hst p (List.mem_cons_of_mem _ hp)
      simp only [cascadeF] at h
      cases hg : pyGet2 rev cr cc with
      | error e => rw [hg] at h; simp at h
      | ok bres =>
        rw [hg] at h
        cases bres with
        | true => exact ih rev rest rev'' hs hsf hrest h i j hij
        | false =>
          cases hset : pySet2 rev cr cc true with
          | error e => rw [hset] at h; simp at h
          | ok rev' =>
            rw [hset] at h
            cases hb : pyGet2 brd cr cc with
            | error e => rw [hb] at h; simp at h
            | ok v =>
              rw [hb] at h
              have hstack' : ∀ p ∈ (pushList flg R C rev' cr cc v).reverse ++ rest,
                  pyGet2 flg p.1 p.2 = .ok false := by
                intro p hp
                rcases List.mem_append.mp hp with hp' | hp'
                · exact (mem_pushList.mp (List.mem_reverse.mp hp')).2.2.2
                · exact hrest p hp'
              obtain ⟨i0, j0, hi0, hj0, _⟩ := pyGet2_ok_norms hs hg
              have hrev' := natGet_pySet2 hs hi0 hj0 hset i j
              rcases ih rev' _ rev'' (pySet2_shape hs hset) hsf hstack' h i j hij
                with h' | h'
              · rw [hrev'] at h'
                by_cases hc : i = i0 ∧ j = j0
                · obtain ⟨i1, j1, hi1, hj1, hflval⟩ := pyGet2_ok_norms hsf hfl
                  rw [hi0] at hi1
                  rw [hj0] at hj1
                  obtain rfl : i0 = i1 := Option.some_inj.mp hi1
                  obtain rfl : j0 = j1 := Option.some_inj.mp hj1
                  exact Or.inr (hc.1 ▸ hc.2 ▸ hflval)
                · rw [if_neg hc] at h'
                  exact Or.inl h'
              · exact Or.inr h'

/-- The invariant maintained by all reachable boards: well-shaped grids,
flag/reveal exclusivity, and the exact relationship between `victory`,
`game_over` and the revealed count. -/
def Inv (b : Board) : Prop :=
  Shape b.revealed b.rows b.cols ∧
  Shape b.flagged b.rows b.cols ∧
  Shape b.board b.rows b.cols ∧
  (∀ i j : Nat, ¬(natGet b.flagged i j = some true ∧ natGet b.revealed i j = some true)) ∧
  (b.victory = true → b.game_over = true ∧ countInt b = targetInt b) ∧
  (b.game_over = false → b.victory = false ∧ (countInt b = targetInt b → revealedCount b = 0))

theorem revealedCount_reset (R C M : Nat) : revealedCount (Board.reset R C M) = 0 := by
  unfold revealedCount Board.reset
  simp [natGet_mkGrid, List.filter_eq_nil_iff]

theorem Inv_reset (R C M : Nat) : Inv (Board.reset R C M) := by
  refine ⟨shape_mkGrid R C false, shape_mkGrid R C false, shape_mkGrid R C (0 : Int),
    ?_, ?_, ?_⟩
  · intro i j ⟨hfl, _⟩
    rw [show (Board.reset R C M).flagged = mkGrid R C false from rfl, natGet_mkGrid] at hfl
    split at hfl <;> simp at hfl
  · intro hvic
    exact absurd hvic (by simp [Board.reset])
  · intro _
    refine ⟨rfl, fun _ => ?_⟩
    exact revealedCount_reset R C M

/-- The three possible outcomes of `check_victory`. -/
theorem check_victory_cases (b : Board) :
    (b.game_over = true ∧ b.check_victory = b) ∨
    (b.game_over = false ∧ countInt b = targetInt b ∧
      b.check_victory = { b with game_over := true, victory := true }) ∨
    (b.game_over = false ∧ countInt b ≠ targetInt b ∧ b.check_victory = b) := by
  unfold Board.check_victory
  by_cases hgo : b.game_over
  · rw [if_pos hgo]
    exact Or.inl ⟨hgo, rfl⟩
  · rw [if_neg hgo]
    rw [Bool.not_eq_true] at hgo
    by_cases hcnt : (revealedCount b : Int) = (b.rows : Int) * (b.cols : Int) - (b.mines_count : Int)
    · rw [if_pos hcnt]
      exact Or.inr (Or.inl ⟨hgo, hcnt, rfl⟩)
    · rw [if_neg hcnt]
      exact Or.inr (Or.inr ⟨hgo, hcnt, rfl⟩)

theorem Inv_toggle {b b' : Board} {r c : Int} (hI : Inv b)
    (h : b.toggle_flag r c = .ok b') : Inv b' := by
  obtain ⟨hsR, hsF, hsB, hexcl, hvic, hpend⟩ := hI
  rcases toggle_cases h with ⟨_, rfl⟩ | ⟨_, _, rfl⟩ | ⟨hgo, hv, f, flg, hf, hset, rfl⟩
  · exact ⟨hsR, hsF, hsB, hexcl, hvic, hpend⟩
  · exact ⟨hsR, hsF, hsB, hexcl, hvic, hpend⟩
  · have hsF2 : Shape flg b.rows b.cols := pySet2_shape hsF hset
    obtain ⟨i0, j0, hi0, hj0, hrv⟩ := pyGet2_ok_norms hsR hv
    have hflg := natGet_pySet2 hsF hi0 hj0 hset
    have hexcl2 : ∀ i j : Nat,
        ¬(natGet flg i j = some true ∧ natGet b.revealed i j = some true) := by
      rintro i j ⟨h1, h2⟩
      rw [hflg i j] at h1
      by_cases hc : i = i0 ∧ j = j0
      · obtain ⟨rfl, rfl⟩ := hc
        rw [hrv] at h2
        simp at h2
      · rw [if_neg hc] at h1
        exact hexcl i j ⟨h1, h2⟩
    rcases check_victory_cases { b with flagged := flg } with
      ⟨hgo2, heq⟩ | ⟨hgo2, hcntT, heq⟩ | ⟨hgo2, hcntF, heq⟩
    · rw [show ({ b with flagged := flg } : Board).game_over = b.game_over from rfl,
        hgo] at hgo2
      simp at hgo2
    · rw [heq]
      refine ⟨hsR, hsF2, hsB, hexcl2, ?_, ?_⟩
      · intro _
        exact ⟨rfl, hcntT⟩
      · intro hgof
        simp at hgof
    · rw [heq]
      refine ⟨hsR, hsF2, hsB, hexcl2, ?_, ?_⟩
      · intro hvict
        exact absurd ((hpend hgo).1 ▸ hvict : (false : Bool) = true) (by simp)
      · intro _
        exact ⟨(hpend hgo).1, fun hct => absurd hct hcntF⟩

theorem Inv_reveal {b b' : Board} {r c : Int} {sample : List (Int × Int)} (hI : Inv b)
    (h : b.reveal r c sample = .ok b') : Inv b' := by
  obtain ⟨hsR, hsF, hsB, hexcl, hvic, hpend⟩ := hI
  rcases reveal_cases h with ⟨_, rfl⟩ | ⟨_, _, rfl⟩ | ⟨_, _, _, rfl⟩ |
    ⟨hgo, hf, hv, b1, hb1, hbr⟩
  · exact ⟨hsR, hsF, hsB, hexcl, hvic, hpend⟩
  · exact ⟨hsR, hsF, hsB, hexcl, hvic, hpend⟩
  · exact ⟨hsR, hsF, hsB, hexcl, hvic, hpend⟩
  · have hfields : b1.rows = b.rows ∧ b1.cols = b.cols ∧ b1.mines_count = b.mines_count ∧
        b1.revealed = b.revealed ∧ b1.flagged = b.flagged ∧ b1.game_over = b.game_over ∧
        b1.victory = b.victory ∧ Shape b1.board b.rows b.cols := by
      rcases hb1 with ⟨_, rfl⟩ | ⟨_, hpm⟩
      · exact ⟨rfl, rfl, rfl, rfl, rfl, rfl, rfl, hsB⟩
      · obtain ⟨_, _, _, h4, h5, h6, h7, h8, h9, h10, h11, _⟩ := place_mines_spec hsB hpm
        exact ⟨h4, h5, h6, h7, h8, h9, h10, h11⟩
    obtain ⟨e1, e2, e3, e4, e5, e6, e7, hsB1⟩ := hfields
    have hsR1 : Shape b1.revealed b1.rows b1.cols := by rw [e1, e2, e4]; exact hsR
    have hsF1 : Shape b1.flagged b1.rows b1.cols := by rw [e1, e2, e5]; exact hsF
    have hsB1' : Shape b1.board b1.rows b1.cols := by rw [e1, e2]; exact hsB1
    have hf1 : pyGet2 b1.flagged r c = .ok false := by rw [e5]; exact hf
    have hv1 : pyGet2 b1.revealed r c = .ok false := by rw [e4]; exact hv
    have hexcl1 : ∀ i j : Nat,
        ¬(natGet b1.flagged i j = some true ∧ natGet b1.revealed i j = some true) := by
      rw [e4, e5]
      exact hexcl
    rcases hbr with ⟨hm, rev, hset, rfl⟩ | ⟨hm, rev, hcas, rfl⟩
    · -- mine revealed: game over, lost
      have hsRev : Shape rev b1.rows b1.cols := pySet2_shape hsR1 hset
      obtain ⟨i0, j0, hi0, hj0, hrv0⟩ := pyGet2_ok_norms hsR1 hv1
      have hrev := natGet_pySet2 hsR1 hi0 hj0 hset
      obtain ⟨i1, j1, hi1, hj1, hflval⟩ := pyGet2_ok_norms hsF1 hf1
      rw [hi0] at hi1
      rw [hj0] at hj1
      obtain rfl : i0 = i1 := Option.some_inj.mp hi1
      obtain rfl : j0 = j1 := Option.some_inj.mp hj1
      refine ⟨hsRev, hsF1, hsB1', ?_, ?_, ?_⟩
      · rintro i j ⟨h1, h2⟩
        rw [hrev i j] at h2
        by_cases hc : i = i0 ∧ j = j0
        · obtain ⟨rfl, rfl⟩ := hc
          rw [hflval] at h1
          simp at h1
        · rw [if_neg hc] at h2
          exact hexcl1 i j ⟨h1, h2⟩
      · intro hvict
        simp at hvict
      · intro hgof
        simp at hgof
    · -- cascade branch, then check_victory
      have hsRev : Shape rev b1.rows b1.cols := cascadeF_shape _ _ _ _ hsR1 hcas
      have hexcl2 : ∀ i j : Nat,
          ¬(natGet b1.flagged i j = some true ∧ natGet rev i j = some true) := by
        rintro i j ⟨h1, h2⟩
        rcases cascadeF_unflagged _ _ _ _ hsR1 hsF1
          (by
            intro p hp
            rcases List.mem_cons.mp hp with rfl | hp'
            · exact hf1
            · simp at hp') hcas i j h2 with h' | h'
        · exact hexcl1 i j ⟨h1, h'⟩
        · rw [h'] at h1
          simp at h1
      have hgo1 : b1.game_over = false := by rw [e6]; exact hgo
      rcases check_victory_cases { b1 with revealed := rev } with
        ⟨hgo2, heq⟩ | ⟨hgo2, hcntT, heq⟩ | ⟨hgo2, hcntF, heq⟩
      · rw [show ({ b1 with revealed := rev } : Board).game_over = b1.game_over from rfl,
          hgo1] at hgo2
        simp at hgo2
      · rw [heq]
        refine ⟨hsRev, hsF1, hsB1', hexcl2, ?_, ?_⟩
        · intro _
          exact ⟨rfl, hcntT⟩
        · intro hgof
          simp at hgof
      · rw [heq]
        have hvic1 : b1.victory = false := by rw [e7]; exact (hpend hgo).1
        refine ⟨hsRev, hsF1, hsB1', hexcl2, ?_, ?_⟩
        · intro hvict
          exact absurd (hvic1 ▸ hvict : (false : Bool) = true) (by simp)
        · intro _
          exact ⟨hvic1, fun hct => absurd hct hcntF⟩

/-- Every reachable board satisfies the invariant. -/
theorem Reachable_Inv {b : Board} (h : Reachable b) : Inv b := by
  induction h with
  | reset R C M => exact Inv_reset R C M
  | reveal r c sample _ hok ih => exact Inv_reveal ih hok
  | flag r c _ hok ih => exact Inv_toggle ih hok

/-! ## Characterisation of the solver -/

/-- The symbol of a view cell; meaningful at coordinates where the read
succeeds (in particular at in-bounds coordinates of a well-shaped view). -/
def sget (g : Grid Sym) (p : Int × Int) : Sym :=
  ((pyGet2 g p.1 p.2).toOption).getD Sym.unseen

/-- The number `F` computed by `check`: flagged cells in the guarded
3×3 neighbourhood scan. -/
def flaggedCnt (g : Grid Sym) (t k : Int) (m n : Nat) : Nat :=
  ((scanCells t k m n).filter (fun p => decide (sget g p = Sym.flaggedSym))).length

/-- The list `U` collected by `check`: unseen cells in the guarded
3×3 neighbourhood scan, in scan order. -/
def unseenList (g : Grid Sym) (t k : Int) (m n : Nat) : List (Int × Int) :=
  (scanCells t k m n).filter (fun p => decide (sget g p = Sym.unseen))

theorem sget_of_ok {g : Grid Sym} {p : Int × Int} {s : Sym}
    (h : pyGet2 g p.1 p.2 = .ok s) : sget g p = s := by
  unfold sget
  rw [h]
  rfl

theorem sget_ok {g : Grid Sym} {m n : Nat} (hs : Shape g m n) {r c : Int}
    (h0 : 0 ≤ r) (h1 : r < (m : Int)) (h2 : 0 ≤ c) (h3 : c < (n : Int)) :
    pyGet2 g r c = .ok (sget g (r, c)) := by
  have hB : inBounds m n r c = true := inBounds_iff.mpr ⟨h0, h1, h2, h3⟩
  obtain ⟨hr, hc⟩ := inBounds_normIdx hB
  obtain ⟨v, hv, _⟩ := pyGet2_ok_of_norms hs hr hc
  rw [hv, sget_of_ok hv]

theorem mem_scanCells {t k : Int} {m n : Nat} {p : Int × Int} :
    p ∈ scanCells t k m n ↔
      (0 ≤ p.1 ∧ 0 ≤ p.2 ∧ p.1 < (m : Int) ∧ p.2 < (n : Int)) ∧
      (t - 1 ≤ p.1 ∧ p.1 ≤ t + 1 ∧ k - 1 ≤ p.2 ∧ p.2 ≤ k + 1) := by
  obtain ⟨x, y⟩ := p
  unfold scanCells
  simp only [List.mem_filter, List.mem_flatMap, List.mem_map, Bool.and_eq_true,
    decide_eq_true_eq]
  constructor
  · rintro ⟨⟨i, hi, j, hj, hp⟩, ⟨⟨h1, h2⟩, h3⟩, h4⟩
    rw [Prod.mk.injEq] at hp
    obtain ⟨rfl, rfl⟩ := hp
    simp only [List.mem_cons, List.not_mem_nil, or_false] at hi hj
    refine ⟨⟨h1, h2, h3, h4⟩, ?_, ?_, ?_, ?_⟩ <;> omega
  · rintro ⟨⟨h1, h2, h3, h4⟩, h5, h6, h7, h8⟩
    refine ⟨⟨x, ?_, y, ?_, rfl⟩, ⟨⟨h1, h2⟩, h3⟩, h4⟩ <;>
      · simp only [List.mem_cons, List.not_mem_nil, or_false]
        omega

theorem mem_neighbors {R C : Nat} {r c : Int} {q : Int × Int} :
    q ∈ neighbors R C r c ↔
      (0 ≤ q.1 ∧ 0 ≤ q.2 ∧ q.1 < (R : Int) ∧ q.2 < (C : Int)) ∧
      (r - 1 ≤ q.1 ∧ q.1 ≤ r + 1 ∧ c - 1 ≤ q.2 ∧ q.2 ≤ c + 1) ∧ q ≠ (r, c) := by
  obtain ⟨x, y⟩ := q
  unfold neighbors
  simp only [List.mem_filter, List.mem_map]
  constructor
  · rintro ⟨⟨d, hd, hp⟩, hB⟩
    obtain ⟨hB1, hB2, hB3, hB4⟩ := inBounds_iff.mp hB
    rw [Prod.mk.injEq] at hp
    obtain ⟨rfl, rfl⟩ := hp
    fin_cases hd <;>
      refine ⟨⟨hB1, hB3, hB2, hB4⟩, ⟨by omega, by omega, by omega, by omega⟩, ?_⟩ <;>
      · intro hcon
        rw [Prod.mk.injEq] at hcon
        obtain ⟨hc1, hc2⟩ := hcon
        omega
  · rintro ⟨⟨h1, h2, h3, h4⟩, ⟨h5, h6, h7, h8⟩, hne⟩
    have hexy : ¬(x - r = 0 ∧ y - c = 0) := by
      rintro ⟨hx, hy⟩
      exact hne (Prod.ext (by omega) (by omega))
    refine ⟨⟨(x - r, y - c), ?_, Prod.ext (by omega) (by omega)⟩,
      inBounds_iff.mpr ⟨h1, h3, h2, h4⟩⟩
    simp only [deltas, List.mem_cons, List.not_mem_nil, or_false, Prod.mk.injEq]
    have hx : x - r = -1 ∨ x - r = 0 ∨ x - r = 1 := by omega
    have hy : y - c = -1 ∨ y - c = 0 ∨ y - c = 1 := by omega
    rcases hx with hx | hx | hx <;> rcases hy with hy | hy | hy <;>
      simp [hx, hy] at hexy ⊢

theorem nodup_scanCells (t k : Int) (m n : Nat) : (scanCells t k m n).Nodup := by
  unfold scanCells
  apply List.Nodup.filter
  rw [List.nodup_flatMap]
  constructor
  · intro i _
    have hinj : Function.Injective (fun j => ((i, j) : Int × Int)) := by
      intro a b hab
      simpa using hab
    refine List.Nodup.map hinj ?_
    refine List.nodup_cons.mpr ⟨?_, List.nodup_cons.mpr ⟨?_, List.nodup_singleton _⟩⟩ <;>
      · simp only [List.mem_cons, List.not_mem_nil, or_false, List.mem_singleton]
        omega
  · have hnd : List.Pairwise (fun a b => a ≠ b) ([t - 1, t, t + 1] : List Int) := by
      refine List.pairwise_cons.mpr ⟨?_, List.pairwise_cons.mpr
        ⟨?_, List.pairwise_singleton _ _⟩⟩ <;>
        · intro a ha
          simp only [List.mem_cons, List.not_mem_nil, or_false, List.mem_singleton] at ha
          omega
    refine List.Pairwise.imp ?_ hnd
    intro a b hab
    simp only [Function.onFun, List.disjoint_left, List.mem_map]
    rintro p ⟨j, _, rfl⟩ ⟨j', _, hp⟩
    have hba : b = a := congrArg Prod.fst hp
    exact hab hba.symm

theorem nodup_neighbors (R C : Nat) (r c : Int) : (neighbors R C r c).Nodup := by
  unfold neighbors
  apply List.Nodup.filter
  refine List.Nodup.map ?_ (by decide)
  intro a b hab
  rw [Prod.mk.injEq] at hab
  exact Prod.ext (by omega) (by omega)

/-- With the centre in bounds, the guarded 3×3 scan visits exactly the
centre plus its in-bounds neighbours. -/
theorem scanCells_perm {t k : Int} {m n : Nat}
    (h0 : 0 ≤ t) (h1 : t < (m : Int)) (h2 : 0 ≤ k) (h3 : k < (n : Int)) :
    (scanCells t k m n).Perm ((t, k) :: neighbors m n t k) := by
  rw [List.perm_ext_iff_of_nodup (nodup_scanCells t k m n) ?_]
  · intro q
    rw [mem_scanCells, List.mem_cons, mem_neighbors]
    constructor
    · rintro ⟨hB, hloc⟩
      by_cases hq : q = (t, k)
      · exact Or.inl hq
      · exact Or.inr ⟨hB, hloc, hq⟩
    · rintro (rfl | ⟨hB, hloc, _⟩)
      · exact ⟨⟨h0, h2, h1, h3⟩, by omega, by omega, by omega, by omega⟩
      · exact ⟨hB, hloc⟩
  · rw [List.nodup_cons]
    refine ⟨?_, nodup_neighbors m n t k⟩
    intro hmem
    exact (mem_neighbors.mp hmem).2.2 rfl

theorem mapM_reads {g : Grid Sym} : ∀ (cells : List (Int × Int)),
    (∀ p ∈ cells, pyGet2 g p.1 p.2 = .ok (sget g p)) →
    cells.mapM (fun p => do
      let s ← pyGet2 g p.1 p.2
      pure (p, s)) = .ok (cells.map (fun p => (p, sget g p))) := by
  intro cells
  induction cells with
  | nil => intro _; rfl
  | cons p rest ih =>
    intro hall
    rw [List.mapM_cons, hall p (List.mem_cons_self _ _)]
    simp only [py_bind_ok]
    rw [ih (fun q hq => hall q (List.mem_cons_of_mem _ hq))]
    rfl

/-- Full evaluation of `check` at an in-bounds target on a well-shaped
view: the target symbol decides everything, with `U` and `F` computed by
the guarded 3×3 scan. -/
theorem check_eval {g : Grid Sym} {m n : Nat} (hs : Shape g m n) {t k : Int}
    (h0 : 0 ≤ t) (h1 : t < (m : Int)) (h2 : 0 ≤ k) (h3 : k < (n : Int)) :
    check g t k m n =
      match sget g (t, k) with
      | Sym.unseen => .ok none
      | Sym.flaggedSym => .ok none
      | Sym.mineSym => .error .valueError
      | Sym.count tn =>
        .ok (if (unseenList g t k m n).length ≠ 0 then
          (if flaggedCnt g t k m n = tn then some (0, unseenList g t k m n)
           else if (tn : Int) - (flaggedCnt g t k m n : Int) =
               ((unseenList g t k m n).length : Int) then
             some (1, unseenList g t k m n)
           else none)
          else none) := by
  have htk : pyGet2 g t k = .ok (sget g (t, k)) := sget_ok hs h0 h1 h2 h3
  unfold check
  rw [htk]
  simp only [py_bind_ok]
  cases hsym : sget g (t, k) with
  | unseen => rfl
  | flaggedSym => rfl
  | mineSym => rfl
  | count tn =>
    have hreads : ∀ p ∈ scanCells t k m n, pyGet2 g p.1 p.2 = .ok (sget g p) := by
      intro p hp
      obtain ⟨⟨b1, b2, b3, b4⟩, _⟩ := mem_scanCells.mp hp
      exact sget_ok hs b1 b3 b2 b4
    rw [mapM_reads _ hreads]
    simp only [py_bind_ok]
    unfold flaggedCnt unseenList
    simp only [List.filter_map, List.map_map, List.length_map]
    have hcomp1 : ((fun ps : (Int × Int) × Sym => decide (ps.2 = Sym.unseen)) ∘
        fun p : Int × Int => (p, sget g p)) = fun p => decide (sget g p = Sym.unseen) := rfl
    have hcomp2 : ((fun ps : (Int × Int) × Sym => decide (ps.2 = Sym.flaggedSym)) ∘
        fun p : Int × Int => (p, sget g p)) = fun p => decide (sget g p = Sym.flaggedSym) := rfl
    have hcomp3 : ((fun ps : (Int × Int) × Sym => ps.1) ∘
        fun p : Int × Int => (p, sget g p)) = fun p : Int × Int => p := rfl
    rw [hcomp1, hcomp2, hcomp3, List.map_id']
    split_ifs <;> rfl

/-- A `check` call that returns a value read its target successfully. -/
theorem check_ok_read {g : Grid Sym} {t k : Int} {m n : Nat}
    {res : Option (Nat × List (Int × Int))} (h : check g t k m n = .ok res) :
    pyGet2 g t k = .ok (sget g (t, k)) := by
  unfold check at h
  cases htk : pyGet2 g t k with
  | error e => rw [htk, py_bind_error] at h; simp at h
  | ok s => rw [sget_of_ok htk]

/-- The scan returns the first deduction found, in row-major order. -/
theorem solLoop_first {g : Grid Sym} {m n : Nat} :
    ∀ (pre : List (Nat × Nat)) (t k : Nat) (post : List (Nat × Nat))
      (dd : Int × Int) (res : Nat × List (Int × Int)),
      (∀ p ∈ pre, check g (p.1 : Int) (p.2 : Int) m n = .ok none) →
      check g (t : Int) (k : Int) m n = .ok (some res) →
      solLoop g m n (pre ++ (t, k) :: post) dd = .ok res := by
  intro pre
  induction pre with
  | nil =>
    intro t k post dd res _ hck
    show solLoop g m n ((t, k) :: post) dd = .ok res
    unfold solLoop
    rw [hck]
    simp only [py_bind_ok]
    rw [check_ok_read hck]
    simp only [py_bind_ok]
    rfl
  | cons p pre' ih =>
    intro t k post dd res hpre hck
    have hp : check g (p.1 : Int) (p.2 : Int) m n = .ok none :=
      hpre p (List.mem_cons_self _ _)
    obtain ⟨i, j⟩ := p
    show solLoop g m n ((i, j) :: (pre' ++ (t, k) :: post)) dd = .ok res
    unfold solLoop
    rw [hp]
    simp only [py_bind_ok]
    rw [check_ok_read hp]
    simp only [py_bind_ok]
    exact ih t k post _ res (fun q hq => hpre q (List.mem_cons_of_mem _ hq)) hck

/-- The row-major-last `Unseen` coordinate among `cells`. -/
def lastUnseenFrom (g : Grid Sym) (cells : List (Nat × Nat)) : Option (Nat × Nat) :=
  (cells.filter (fun p => decide (sget g ((p.1 : Int), (p.2 : Int)) = Sym.unseen))).getLast?

/-- A scan in which every `check` returns `-1` ends in the fallback:
reveal the row-major-last unseen cell, or raise when none exists. -/
theorem solLoop_fallback {g : Grid Sym} {m n : Nat} :
    ∀ (cells : List (Nat × Nat)) (dd : Int × Int),
      (∀ p ∈ cells, check g (p.1 : Int) (p.2 : Int) m n = .ok none) →
      solLoop g m n cells dd =
        match lastUnseenFrom g cells with
        | some p => .ok (0, [((p.1 : Int), (p.2 : Int))])
        | none =>
          if dd = (-1, -1) then .error (.raised solverFailMsg) else .ok (0, [dd]) := by
  intro cells
  induction cells with
  | nil => intro dd _; rfl
  | cons p rest ih =>
    intro dd hall
    have hp : check g (p.1 : Int) (p.2 : Int) m n = .ok none :=
      hall p (List.mem_cons_self _ _)
    obtain ⟨i, j⟩ := p
    show solLoop g m n ((i, j) :: rest) dd = _
    unfold solLoop
    rw [hp]
    simp only [py_bind_ok]
    rw [check_ok_read hp]
    simp only [py_bind_ok]
    rw [ih _ (fun q hq => hall q (List.mem_cons_of_mem _ hq))]
    unfold lastUnseenFrom
    by_cases hu : sget g ((i : Int), (j : Int)) = Sym.unseen
    · rw [if_pos hu, List.filter_cons_of_pos (by simpa using hu)]
      cases hrest : (rest.filter
          (fun p => decide (sget g ((p.1 : Int), (p.2 : Int)) = Sym.unseen))).getLast? with
      | some q =>
        have hne2 : rest.filter
            (fun p => decide (sget g ((p.1 : Int), (p.2 : Int)) = Sym.unseen)) ≠ [] := by
          intro hnil
          rw [hnil] at hrest
          simp at hrest
        obtain ⟨x, xs, hxs⟩ := List.exists_cons_of_ne_nil hne2
        rw [hxs, List.getLast?_cons_cons, ← hxs, hrest]
      | none =>
        have hnil : rest.filter
            (fun p => decide (sget g ((p.1 : Int), (p.2 : Int)) = Sym.unseen)) = [] := by
          rwa [List.getLast?_eq_none_iff] at hrest
        rw [hnil]
        simp only [List.getLast?_singleton]
        rw [if_neg (by
          intro hcon
          have h1 : (i : Int) = -1 := congrArg Prod.fst hcon
          omega)]
    · rw [if_neg hu, List.filter_cons_of_neg (by simpa using hu)]

/-- A scan whose every `check` succeeds either returns a move or raises
the no-moves exception; no other outcome is possible. -/
theorem solLoop_total {g : Grid Sym} {m n : Nat} :
    ∀ (cells : List (Nat × Nat)) (dd : Int × Int),
      (∀ p ∈ cells, ∃ ores, check g (p.1 : Int) (p.2 : Int) m n = .ok ores) →
      (∃ res, solLoop g m n cells dd = .ok res) ∨
        solLoop g m n cells dd = .error (.raised solverFailMsg) := by
  intro cells
  induction cells with
  | nil =>
    intro dd _
    by_cases hdd : dd = (-1, -1)
    · right
      show (if dd = (-1, -1) then _ else _) = _
      rw [if_pos hdd]
    · left
      refine ⟨(0, [dd]), ?_⟩
      show (if dd = (-1, -1) then _ else _) = _
      rw [if_neg hdd]
      rfl
  | cons p rest ih =>
    intro dd hall
    obtain ⟨ores, hp⟩ := hall p (List.mem_cons_self _ _)
    obtain ⟨i, j⟩ := p
    show (∃ res, solLoop g m n ((i, j) :: rest) dd = .ok res) ∨ _
    unfold solLoop
    rw [hp]
    simp only [py_bind_ok]
    rw [check_ok_read hp]
    simp only [py_bind_ok]
    cases ores with
    | some res => exact Or.inl ⟨res, rfl⟩
    | none => exact ih _ (fun q hq => hall q (List.mem_cons_of_mem _ hq))

/-- `U` is exactly the set of in-bounds unseen neighbours when the centre
holds a count. -/
theorem mem_unseenList {g : Grid Sym} {t k : Int} {m n : Nat} {N : Nat}
    (hsym : sget g (t, k) = Sym.count N) {p : Int × Int} :
    p ∈ unseenList g t k m n ↔ p ∈ neighbors m n t k ∧ sget g p = Sym.unseen := by
  unfold unseenList
  rw [List.mem_filter, mem_scanCells, mem_neighbors]
  simp only [decide_eq_true_eq]
  constructor
  · rintro ⟨⟨hB, hloc⟩, hu⟩
    refine ⟨⟨hB, hloc, ?_⟩, hu⟩
    rintro rfl
    rw [hsym] at hu
    simp at hu
  · rintro ⟨⟨hB, hloc, _⟩, hu⟩
    exact ⟨⟨hB, hloc⟩, hu⟩

/-- `F` counts exactly the in-bounds flagged neighbours when the centre
holds a count and is in bounds. -/
theorem flaggedCnt_eq {g : Grid Sym} {t k : Int} {m n : Nat} {N : Nat}
    (h0 : 0 ≤ t) (h1 : t < (m : Int)) (h2 : 0 ≤ k) (h3 : k < (n : Int))
    (hsym : sget g (t, k) = Sym.count N) :
    flaggedCnt g t k m n =
      ((neighbors m n t k).filter (fun p => decide (sget g p = Sym.flaggedSym))).length := by
  unfold flaggedCnt
  rw [← List.countP_eq_length_filter, ← List.countP_eq_length_filter]
  rw [(scanCells_perm h0 h1 h2 h3).countP_eq]
  rw [List.countP_cons]
  have hnf : decide (sget g (t, k) = Sym.flaggedSym) = false := by
    rw [hsym]
    rfl
  rw [hnf]
  simp

theorem check_victory_preserves (b : Board) :
    (b.check_victory).mines = b.mines ∧ (b.check_victory).placed = b.placed ∧
    (b.check_victory).board = b.board ∧ (b.check_victory).revealed = b.revealed ∧
    (b.check_victory).flagged = b.flagged ∧ (b.check_victory).rows = b.rows ∧
    (b.check_victory).cols = b.cols ∧ (b.check_victory).mines_count = b.mines_count := by
  rcases check_victory_cases b with ⟨_, heq⟩ | ⟨_, _, heq⟩ | ⟨_, _, heq⟩ <;>
    rw [heq] <;> exact ⟨rfl, rfl, rfl, rfl, rfl, rfl, rfl, rfl⟩

theorem sampleOk_length_le {a : List (Int × Int)} {k : Nat} {s : List (Int × Int)}
    (h : sampleOk a k s) : k ≤ a.length := by
  obtain ⟨hl, hnd, hmem⟩ := h
  calc k = s.length := hl.symm
    _ = s.toFinset.card := (List.toFinset_card_of_nodup hnd).symm
    _ ≤ a.toFinset.card := Finset.card_le_card (by
        intro x hx
        rw [List.mem_toFinset] at hx ⊢
        exact hmem x hx)
    _ ≤ a.length := a.toFinset_card_le

theorem pyGet2_indexError {α : Type} {g : Grid α} {R C : Nat} (hs : Shape g R C)
    {r c : Int} (h : normIdx R r = none ∨ normIdx C c = none) :
    pyGet2 g r c = .error .indexError := by
  cases hnr : normIdx R r with
  | none =>
    have hget : pyGet g r = .error .indexError := by
      unfold pyGet
      rw [hs.1, hnr]
    unfold pyGet2
    rw [hget, py_bind_error]
  | some i =>
    have hnc : normIdx C c = none := by
      rcases h with h | h
      · rw [hnr] at h; simp at h
      · exact h
    have hilen : i < g.length := hs.1 ▸ normIdx_lt hnr
    obtain ⟨row, hrow⟩ : ∃ row, g.get? i = some row :=
      ⟨g.get ⟨i, hilen⟩, List.get?_eq_get hilen⟩
    have hget : pyGet g r = .ok row := pyGet_ok_iff.mpr ⟨i, hs.1 ▸ hnr, hrow⟩
    have hget2 : pyGet row c = .error .indexError := by
      unfold pyGet
      rw [shape_row hs hrow, hnc]
    unfold pyGet2
    rw [hget, py_bind_ok, hget2]

theorem pyGet2_norm_congr {α : Type} {g : Grid α} {R C : Nat} (hs : Shape g R C)
    {r c : Int} {i j : Nat} (hr : normIdx R r = some i) (hc : normIdx C c = some j) :
    pyGet2 g r c = pyGet2 g (i : Int) (j : Int) := by
  obtain ⟨v, hv, hng⟩ := pyGet2_ok_of_norms hs hr hc
  rw [hv, (pyGet2_coe hs (normIdx_lt hr) (normIdx_lt hc)).mpr hng]

theorem pySet2_norm_congr {α : Type} {g : Grid α} {R C : Nat} (hs : Shape g R C)
    {r c : Int} {i j : Nat} (hr : normIdx R r = some i) (hc : normIdx C c = some j)
    (a : α) : pySet2 g r c a = pySet2 g (i : Int) (j : Int) a := by
  have hilen : i < g.length := hs.1 ▸ normIdx_lt hr
  obtain ⟨row, hrow⟩ : ∃ row, g.get? i = some row :=
    ⟨g.get ⟨i, hilen⟩, List.get?_eq_get hilen⟩
  have h1 : pySet2 g r c a = .ok (g.set i (row.set j a)) :=
    pySet2_ok_iff.mpr ⟨i, row, j, hs.1 ▸ hr, hrow, (shape_row hs hrow) ▸ hc, rfl⟩
  have h2 : pySet2 g (i : Int) (j : Int) a = .ok (g.set i (row.set j a)) :=
    pySet2_ok_iff.mpr ⟨i, row, j, hs.1 ▸ normIdx_coe (normIdx_lt hr), hrow,
      (shape_row hs hrow) ▸ normIdx_coe (normIdx_lt hc), rfl⟩
  rw [h1, h2]

theorem natGet_pySet2_true_mono {g g' : Grid Bool} {r c : Int}
    (hset : pySet2 g r c true = .ok g') {i j : Nat}
    (h : natGet g i j = some true) : natGet g' i j = some true := by
  obtain ⟨i0, row, j0, _, hrow, hj0, rfl⟩ := pySet2_ok_iff.mp hset
  have hi0len : i0 < g.length := by
    rw [List.get?_eq_some] at hrow; exact hrow.1
  by_cases hii : i = i0
  · subst hii
    rw [natGet_eq _ i j (List.get?_set_eq_of_lt _ hi0len)]
    by_cases hjj : j = j0
    · subst hjj
      exact List.get?_set_eq_of_lt _ (normIdx_lt hj0)
    · rw [List.get?_set_ne _ _ (fun h' => hjj h'.symm)]
      rw [natGet_eq g i j hrow] at h
      exact h
  · have hset' : (g.set i0 (row.set j0 true)).get? i = g.get? i :=
      List.get?_set_ne _ _ (fun h' => hii h'.symm)
    unfold natGet at h ⊢
    rw [hset']
    exact h

theorem cascadeF_true_mono {brd : Grid Int} {flg : Grid Bool} {R C : Nat} :
    ∀ (fuel : Nat) (rev : Grid Bool) (st : List (Int × Int)) (rev'' : Grid Bool),
      cascadeF brd flg R C fuel rev st = .ok rev'' →
      ∀ i j : Nat, natGet rev i j = some true → natGet rev'' i j = some true := by
  intro fuel
  induction fuel with
  | zero =>
    intro rev st rev'' h i j hij
    cases st with
    | nil =>
      obtain rfl : rev = rev'' := by
        simp only [cascadeF] at h
        exact Except.ok.inj h
      exact hij
    | cons hd rest => simp [cascadeF] at h
  | succ f ih =>
    intro rev st rev'' h i j hij
    cases st with
    | nil =>
      obtain rfl : rev = rev'' := by
        simp only [cascadeF] at h
        exact Except.ok.inj h
      exact hij
    | cons hd rest =>
      obtain ⟨cr, cc⟩ := hd
      simp only [cascadeF] at h
      cases hg : pyGet2 rev cr cc with
      | error e => rw [hg] at h; simp at h
      | ok bres =>
        rw [hg] at h
        cases bres with
        | true => exact ih rev rest rev'' h i j hij
        | false =>
          cases hset : pySet2 rev cr cc true with
          | error e => rw [hset] at h; simp at h
          | ok rev' =>
            rw [hset] at h
            cases hb : pyGet2 brd cr cc with
            | error e => rw [hb] at h; simp at h
            | ok v =>
              rw [hb] at h
              exact ih rev' _ rev'' h i j (natGet_pySet2_true_mono hset hij)

theorem revealedCount_congr {b b' : Board} (hr : b'.rows = b.rows)
    (hc : b'.cols = b.cols) (hrev : b'.revealed = b.revealed) :
    revealedCount b' = revealedCount b := by
  unfold revealedCount
  rw [hr, hc, hrev]

/-- Extract the board from a successful computation (used only to name
concrete states in witnesses). -/
def getOk (x : Py Board) : Board :=
  match x with
  | .ok b => b
  | .error _ => Board.reset 0 0 0

/-- Modelled from the spec's words for the cascade-completeness property:
`q` lies in the connected zero-count region of the board that contains
`p`, connected through zero-count cells by 8-neighbour steps. -/
inductive ZeroConn (brd : Grid Int) (R C : Nat) : Int × Int → Int × Int → Prop
  | refl (p : Int × Int) : ZeroConn brd R C p p
  | step {p q q' : Int × Int} : ZeroConn brd R C p q →
      pyGet2 brd q.1 q.2 = .ok 0 → pyGet2 brd q'.1 q'.2 = .ok 0 →
      q' ∈ neighbors R C q.1 q.2 → ZeroConn brd R C p q'

/-! ## The claims -/

/-- C1: the solver scans the view in row-major order and, at the first
`Count(N)` cell whose set `U` of in-bounds `Unseen` neighbours is
non-empty and which satisfies a rule, returns immediately: `(0, U)`
(Reveal) when the flagged-neighbour count `F` equals `N`, else `(1, U)`
(Flag) when `N - F = |U|`; a `Count` cell with `U` empty or satisfying
neither rule is skipped and the scan continues. -/
theorem C1_first_match_scan (g : Grid Sym) (m n : Nat) (hs : Shape g m n)
    (t k : Nat) (ht : t < m) (hk : k < n) (N : Nat)
    (hsym : sget g ((t : Int), (k : Int)) = Sym.count N) :
    (∀ p : Int × Int, p ∈ unseenList g (t : Int) (k : Int) m n ↔
      p ∈ neighbors m n (t : Int) (k : Int) ∧ sget g p = Sym.unseen) ∧
    flaggedCnt g (t : Int) (k : Int) m n =
      ((neighbors m n (t : Int) (k : Int)).filter
        (fun p => decide (sget g p = Sym.flaggedSym))).length ∧
    (unseenList g (t : Int) (k : Int) m n ≠ [] →
      flaggedCnt g (t : Int) (k : Int) m n = N →
      check g (t : Int) (k : Int) m n =
        .ok (some (0, unseenList g (t : Int) (k : Int) m n))) ∧
    (unseenList g (t : Int) (k : Int) m n ≠ [] →
      flaggedCnt g (t : Int) (k : Int) m n ≠ N →
      (N : Int) - (flaggedCnt g (t : Int) (k : Int) m n : Int) =
        ((unseenList g (t : Int) (k : Int) m n).length : Int) →
      check g (t : Int) (k : Int) m n =
        .ok (some (1, unseenList g (t : Int) (k : Int) m n))) ∧
    ((unseenList g (t : Int) (k : Int) m n = [] ∨
      (flaggedCnt g (t : Int) (k : Int) m n ≠ N ∧
        (N : Int) - (flaggedCnt g (t : Int) (k : Int) m n : Int) ≠
          ((unseenList g (t : Int) (k : Int) m n).length : Int))) →
      check g (t : Int) (k : Int) m n = .ok none) ∧
    (∀ (pre post : List (Nat × Nat)) (res : Nat × List (Int × Int)),
      cellList m n = pre ++ (t, k) :: post →
      (∀ p ∈ pre, check g (p.1 : Int) (p.2 : Int) m n = .ok none) →
      check g (t : Int) (k : Int) m n = .ok (some res) →
      solution g m n = .ok res) := by
  have h0 : (0 : Int) ≤ (t : Int) := by positivity
  have h1 : (t : Int) < (m : Int) := by exact_mod_cast ht
  have h2 : (0 : Int) ≤ (k : Int) := by positivity
  have h3 : (k : Int) < (n : Int) := by exact_mod_cast hk
  have hev := check_eval hs h0 h1 h2 h3
  simp only [hsym] at hev
  refine ⟨fun p => mem_unseenList hsym, flaggedCnt_eq h0 h1 h2 h3 hsym, ?_, ?_, ?_, ?_⟩
  · intro hne hF
    rw [hev, if_pos (by
      intro hlen
      exact hne (List.length_eq_zero.mp hlen)), if_pos hF]
  · intro hne hF hFI
    rw [hev, if_pos (by
      intro hlen
      exact hne (List.length_eq_zero.mp hlen)), if_neg hF, if_pos hFI]
  · rintro (hU | ⟨hF, hFI⟩)
    · rw [hev, if_neg (by
        rw [hU]
        simp)]
    · by_cases hU : unseenList g (t : Int) (k : Int) m n = []
      · rw [hev, if_neg (by
          rw [hU]
          simp)]
      · rw [hev, if_pos (fun hlen => hU (List.length_eq_zero.mp hlen)),
          if_neg hF, if_neg hFI]
  · intro pre post res hsplit hpre hck
    unfold solution
    rw [hsplit]
    exact solLoop_first pre t k post (-1, -1) res hpre hck

/-- The spec's end-to-end solver scenario: a 3×3 classified view with
`Count(1)` at `(0,0)`, one flagged neighbour and one unseen neighbour at
`(1,1)`. -/
def cView1 : Grid Sym :=
  [[Sym.count 1, Sym.flaggedSym, Sym.count 0],
   [Sym.count 1, Sym.unseen, Sym.count 0],
   [Sym.count 0, Sym.count 0, Sym.count 0]]

/-- C1 witness: on the spec's scenario view the first matching cell is
`(0,0)` with `F = N = 1`, so the solver deduces `(Reveal, [(1,1)])`. -/
theorem C1_witness :
    check cView1 0 0 3 3 = .ok (some (0, [((1 : Int), (1 : Int))])) ∧
    solution cView1 3 3 = .ok (0, [((1 : Int), (1 : Int))]) := by
  have h := C1_first_match_scan cView1 3 3 (by decide) 0 0 (by decide) (by decide) 1 (by decide)
  have hck : check cView1 ((0 : Nat) : Int) ((0 : Nat) : Int) 3 3 =
      .ok (some (0, unseenList cView1 ((0 : Nat) : Int) ((0 : Nat) : Int) 3 3)) :=
    h.2.2.1 (by decide) (by decide)
  have hU : unseenList cView1 ((0 : Nat) : Int) ((0 : Nat) : Int) 3 3 =
      [((1 : Int), (1 : Int))] := by decide
  refine ⟨hck.trans (by rw [hU]), ?_⟩
  exact h.2.2.2.2.2 [] [(0, 1), (0, 2), (1, 0), (1, 1), (1, 2), (2, 0), (2, 1), (2, 2)]
    (0, [((1 : Int), (1 : Int))]) (by decide) (by simp) (hck.trans (by rw [hU]))

/-- C4: on a view where the full row-major scan finds no deduction, the
solver returns `(Reveal, [p])` for `p` the row-major-last `Unseen`
coordinate if one exists, and raises the no-moves exception if no cell
is `Unseen`; these are the only two outcomes. -/
theorem C4_deduction_free_fallback (g : Grid Sym) (m n : Nat) (hs : Shape g m n)
    (hnone : ∀ p ∈ cellList m n, check g (p.1 : Int) (p.2 : Int) m n = .ok none) :
    (lastUnseenFrom g (cellList m n) = none ↔
      ∀ p ∈ cellList m n, sget g ((p.1 : Int), (p.2 : Int)) ≠ Sym.unseen) ∧
    solution g m n =
      (match lastUnseenFrom g (cellList m n) with
       | some p => .ok (0, [((p.1 : Int), (p.2 : Int))])
       | none => .error (.raised solverFailMsg)) := by
  constructor
  · unfold lastUnseenFrom
    rw [List.getLast?_eq_none_iff, List.filter_eq_nil_iff]
    simp
  · unfold solution
    rw [solLoop_fallback (cellList m n) (-1, -1) hnone]
    cases hX : lastUnseenFrom g (cellList m n) with
    | some p => rfl
    | none => rw [if_pos rfl]

/-- C4 witness: on a fully unseen 1×2 view the scan finds nothing and
falls back to revealing the row-major-last unseen cell `(0,1)`. -/
theorem C4_witness :
    lastUnseenFrom [[Sym.unseen, Sym.unseen]] (cellList 1 2) = some (0, 1) ∧
    solution [[Sym.unseen, Sym.unseen]] 1 2 = .ok (0, [((0 : Int), (1 : Int))]) := by
  have h := (C4_deduction_free_fallback [[Sym.unseen, Sym.unseen]] 1 2
    (by decide) (by decide)).2
  have h2 : lastUnseenFrom [[Sym.unseen, Sym.unseen]] (cellList 1 2) = some (0, 1) := by
    decide
  refine ⟨h2, ?_⟩
  rw [h, h2]
  rfl

/-- C7 counterexample: a classified view containing the Mine symbol `'*'`
makes the solver raise `ValueError` from `int('*')` — the Mine cell does
trigger the conversion, and the failure is neither a returned move nor
the no-moves condition, refuting the claim at the 1×1 view `[['*']]`. -/
theorem C7_counterexample :
    check [[Sym.mineSym]] 0 0 1 1 = .error PyErr.valueError ∧
    solution [[Sym.mineSym]] 1 1 = .error PyErr.valueError := by
  exact ⟨by decide, by decide⟩

/-- C7 amended: a `Mine` cell reached by the scan raises `ValueError`
(only `Unseen` and `Flagged` targets are skipped without conversion);
on views whose cells are free of the Mine symbol, the solver completes
with a returned move or the no-moves exception only. -/
theorem C7_mine_cells_raise :
    (∀ (g : Grid Sym) (t k : Int) (m n : Nat), pyGet2 g t k = .ok Sym.mineSym →
      check g t k m n = .error PyErr.valueError) ∧
    (∀ (g : Grid Sym) (m n : Nat), Shape g m n →
      (∀ p ∈ cellList m n, sget g ((p.1 : Int), (p.2 : Int)) ≠ Sym.mineSym) →
      (∃ res, solution g m n = .ok res) ∨
        solution g m n = .error (.raised solverFailMsg)) := by
  constructor
  · intro g t k m n h
    unfold check
    rw [h]
    rfl
  · intro g m n hs hnomine
    unfold solution
    apply solLoop_total
    intro p hp
    obtain ⟨hpm, hpn⟩ := mem_cellList.mp hp
    have h0 : (0 : Int) ≤ (p.1 : Int) := by positivity
    have h1 : (p.1 : Int) < (m : Int) := by exact_mod_cast hpm
    have h2 : (0 : Int) ≤ (p.2 : Int) := by positivity
    have h3 : (p.2 : Int) < (n : Int) := by exact_mod_cast hpn
    have hev := check_eval hs h0 h1 h2 h3
    cases hsym : sget g ((p.1 : Int), (p.2 : Int)) with
    | unseen => exact ⟨none, by rw [hev]; simp [hsym]⟩
    | flaggedSym => exact ⟨none, by rw [hev]; simp [hsym]⟩
    | mineSym => exact absurd hsym (hnomine p hp)
    | count N => exact ⟨_, by rw [hev, hsym]⟩

/-- C7 witness: the amended statement applied to a concrete Mine view
and a concrete mine-free view. -/
theorem C7_witness :
    check [[Sym.mineSym, Sym.count 0]] 0 0 1 2 = .error PyErr.valueError ∧
    ((∃ res, solution [[Sym.unseen]] 1 1 = .ok res) ∨
      solution [[Sym.unseen]] 1 1 = .error (.raised solverFailMsg)) :=
  ⟨C7_mine_cells_raise.1 [[Sym.mineSym, Sym.count 0]] 0 0 1 2 (by decide),
   C7_mine_cells_raise.2 [[Sym.unseen]] 1 1 (by decide) (by decide)⟩

/-- C5: after the lazy mine placement triggered by a successful first
reveal at an in-bounds coordinate `(r, c)` of a fresh board, the board
holds exactly `mines_count` mines, all distinct and in bounds, and
neither `(r, c)` nor any of its in-bounds neighbours is a mine. -/
theorem C5_safe_first_reveal (R C M : Nat) (r c : Int) (sample : List (Int × Int))
    (b' : Board) (hin : inBounds R C r c = true)
    (h : (Board.reset R C M).reveal r c sample = .ok b') :
    b'.placed = true ∧ b'.mines.length = M ∧ b'.mines.Nodup ∧
    (r, c) ∉ b'.mines ∧ (∀ q ∈ neighbors R C r c, q ∉ b'.mines) ∧
    (∀ q ∈ b'.mines, inBounds R C q.1 q.2 = true) := by
  obtain ⟨hnr, hnc⟩ := inBounds_normIdx hin
  have hfread : pyGet2 (Board.reset R C M).flagged r c = .ok false := by
    obtain ⟨v, hok, hng⟩ := pyGet2_ok_of_norms (shape_mkGrid R C false) hnr hnc
    rw [natGet_mkGrid, if_pos ⟨normIdx_lt hnr, normIdx_lt hnc⟩] at hng
    obtain rfl : false = v := Option.some.inj hng
    exact hok
  have hrread : pyGet2 (Board.reset R C M).revealed r c = .ok false := hfread
  rcases reveal_cases h with ⟨hgo, _⟩ | ⟨_, hf, _⟩ | ⟨_, _, hv, _⟩ |
    ⟨_, _, _, b1, hplace, hbranch⟩
  · exact absurd hgo (by simp [Board.reset])
  · exact absurd (hfread.symm.trans hf) (by simp)
  · exact absurd (hrread.symm.trans hv) (by simp)
  · rcases hplace with ⟨hpl, _⟩ | ⟨_, hpm⟩
    · exact absurd hpl (by simp [Board.reset])
    · obtain ⟨hOK, hmines, hplaced, _, _, _, _, _, _, _, _, _⟩ :=
        place_mines_spec (shape_mkGrid R C 0) hpm
      have hlen : sample.length = M := hOK.1
      have hnd : sample.Nodup := hOK.2.1
      have hmem : ∀ q ∈ sample, q ∈ availableCells R C r c := hOK.2.2
      have hnotsafe : ∀ q ∈ sample, q ∉ (r, c) :: neighbors R C r c := by
        intro q hq
        exact of_decide_eq_true (List.mem_filter.mp (hmem q hq)).2
      have hbounds : ∀ q ∈ sample, inBounds R C q.1 q.2 = true := by
        intro q hq
        exact mem_intCells (List.mem_filter.mp (hmem q hq)).1
      have hbm : b'.mines = sample := by
        rcases hbranch with ⟨_, rev, _, rfl⟩ | ⟨_, rev, _, rfl⟩
        · exact hmines
        · rw [(check_victory_preserves _).1]
          exact hmines
      have hbp : b'.placed = true := by
        rcases hbranch with ⟨_, rev, _, rfl⟩ | ⟨_, rev, _, rfl⟩
        · exact hplaced
        · rw [(check_victory_preserves _).2.1]
          exact hplaced
      rw [hbm]
      refine ⟨hbp, hlen, hnd, ?_, ?_, hbounds⟩
      · intro hmemrc
        exact hnotsafe _ hmemrc (List.mem_cons_self _ _)
      · intro q hqn hqs
        exact hnotsafe q hqs (List.mem_cons_of_mem _ hqn)

/-- The board after a first reveal at `(0, 0)` of a 3×3 board with one
mine, with `random.sample` choosing `(2, 2)`. -/
def c5b : Board := getOk ((Board.reset 3 3 1).reveal 0 0 [(2, 2)])

/-- C5 witness: the safe-first-reveal guarantees at a concrete first
reveal. -/
theorem C5_witness :
    (Board.reset 3 3 1).reveal 0 0 [(2, 2)] = .ok c5b ∧
    c5b.placed = true ∧ c5b.mines.length = 1 ∧ c5b.mines.Nodup ∧
    ((0 : Int), (0 : Int)) ∉ c5b.mines ∧
    (∀ q ∈ neighbors 3 3 0 0, q ∉ c5b.mines) ∧
    (∀ q ∈ c5b.mines, inBounds 3 3 q.1 q.2 = true) := by
  have hok : (Board.reset 3 3 1).reveal 0 0 [(2, 2)] = .ok c5b := by decide
  exact ⟨hok, C5_safe_first_reveal 3 3 1 0 0 [(2, 2)] c5b (by decide) hok⟩

/-- C6: once `place_mines` succeeds on a board whose number grid holds no
mine marker (as on a fresh board), every in-bounds non-mine cell stores
exactly the number of its in-bounds neighbours that are mines; and no
later operation changes the number grid or the mine set — `reveal` on a
placed board and `toggle_flag` both leave `board` and `mines` intact. -/
theorem C6_adjacent_counts (b : Board) :
    (∀ (sr sc : Int) (sample : List (Int × Int)) (b' : Board),
      Shape b.board b.rows b.cols →
      (∀ i j : Nat, i < b.rows → j < b.cols → natGet b.board i j ≠ some MINE) →
      b.place_mines sr sc sample = .ok b' →
      ∀ i j : Nat, i < b.rows → j < b.cols → ((i : Int), (j : Int)) ∉ b'.mines →
        natGet b'.board i j =
          some (((neighbors b.rows b.cols (i : Int) (j : Int)).countP
            (fun q => decide (q ∈ b'.mines)) : Nat) : Int)) ∧
    (∀ (r c : Int) (sample : List (Int × Int)) (b' : Board), b.placed = true →
      b.reveal r c sample = .ok b' → b'.board = b.board ∧ b'.mines = b.mines) ∧
    (∀ (r c : Int) (b' : Board), b.toggle_flag r c = .ok b' →
      b'.board = b.board ∧ b'.mines = b.mines) := by
  refine ⟨?_, ?_, ?_⟩
  · intro sr sc sample b' hs hnomine hpm i j hi hj hnotm
    obtain ⟨_, hmines, _, _, _, _, _, _, _, _, _, hval⟩ := place_mines_spec hs hpm
    rw [hmines] at hnotm ⊢
    rw [hval i j hi hj, if_neg hnotm, if_neg (hnomine i j hi hj)]
  · intro r c sample b' hpl h
    rcases reveal_cases h with ⟨_, rfl⟩ | ⟨_, _, rfl⟩ | ⟨_, _, _, rfl⟩ |
      ⟨_, _, _, b1, hplace, hbranch⟩
    · exact ⟨rfl, rfl⟩
    · exact ⟨rfl, rfl⟩
    · exact ⟨rfl, rfl⟩
    · rcases hplace with ⟨_, rfl⟩ | ⟨hpf, _⟩
      · rcases hbranch with ⟨_, rev, _, rfl⟩ | ⟨_, rev, _, rfl⟩
        · exact ⟨rfl, rfl⟩
        · exact ⟨(check_victory_preserves _).2.2.1, (check_victory_preserves _).1⟩
      · rw [hpl] at hpf
        exact absurd hpf (by simp)
  · intro r c b' h
    rcases toggle_cases h with ⟨_, rfl⟩ | ⟨_, _, rfl⟩ | ⟨_, _, f, flg, _, _, rfl⟩
    · exact ⟨rfl, rfl⟩
    · exact ⟨rfl, rfl⟩
    · exact ⟨(check_victory_preserves _).2.2.1, (check_victory_preserves _).1⟩

/-- A 1×5 board with mines placed at `(0, 2)` and `(0, 4)` (safe zone
around `(0, 0)`). -/
def c6b : Board := getOk ((Board.reset 1 5 2).place_mines 0 0 [(0, 2), (0, 4)])

/-- The board `c6b` after revealing `(0, 0)`. -/
def c6b2 : Board := getOk (c6b.reveal 0 0 [])

/-- C6 witness: the count formula at cell `(0, 3)` of a concrete placed
board, and preservation of `board`/`mines` across a concrete reveal. -/
theorem C6_witness :
    (Board.reset 1 5 2).place_mines 0 0 [(0, 2), (0, 4)] = .ok c6b ∧
    natGet c6b.board 0 3 = some (((neighbors 1 5 (0 : Int) (3 : Int)).countP
      (fun q => decide (q ∈ c6b.mines)) : Nat) : Int) ∧
    c6b2.board = c6b.board ∧ c6b2.mines = c6b.mines := by
  have hpm : (Board.reset 1 5 2).place_mines 0 0 [(0, 2), (0, 4)] = .ok c6b := by decide
  have hrev : c6b.reveal 0 0 [] = .ok c6b2 := by decide
  refine ⟨hpm, ?_, ?_⟩
  · exact (C6_adjacent_counts (Board.reset 1 5 2)).1 0 0 [(0, 2), (0, 4)] c6b
      (by decide)
      (by
        intro i j hi hj
        have hi1 : i < 1 := hi
        have hj5 : j < 5 := hj
        interval_cases i <;> interval_cases j <;> decide)
      hpm 0 3 (by decide) (by decide) (by decide)
  · exact (C6_adjacent_counts c6b).2.1 0 0 [] c6b2 (by decide) hrev

/-- C8: no configuration validation happens before play.  A 2×2 board
with 1 mine constructs without error even though a first reveal at
`(0, 0)` leaves zero cells outside the safe zone, and every first reveal
at `(0, 0)` then raises `ValueError` from inside `random.sample` during
lazy mine placement — mid-call, not at construction/reset. -/
theorem C8_no_construction_validation :
    (Board.reset 2 2 1).game_over = false ∧ (Board.reset 2 2 1).placed = false ∧
    (availableCells 2 2 0 0).length = 0 ∧
    ∀ sample : List (Int × Int),
      (Board.reset 2 2 1).reveal 0 0 sample = .error .valueError := by
  refine ⟨rfl, rfl, by decide, ?_⟩
  intro sample
  have hns : ¬ sampleOk (availableCells 2 2 0 0) (Board.reset 2 2 1).mines_count sample := by
    intro hOK
    have hle := sampleOk_length_le hOK
    rw [show (availableCells 2 2 0 0).length = 0 from by decide] at hle
    exact absurd hle (by decide)
  have hpm : (Board.reset 2 2 1).place_mines 0 0 sample = .error .valueError := by
    show (if sampleOk (availableCells 2 2 0 0) (Board.reset 2 2 1).mines_count sample
        then _ else (Except.error PyErr.valueError : Py Board)) =
      Except.error PyErr.valueError
    rw [if_neg hns]
  unfold Board.reveal
  rw [if_neg (show ¬((Board.reset 2 2 1).game_over = true) from by decide)]
  simp only [show pyGet2 (Board.reset 2 2 1).flagged 0 0 = Except.ok false from by decide,
    py_bind_ok]
  rw [if_neg (by simp)]
  simp only [show pyGet2 (Board.reset 2 2 1).revealed 0 0 = Except.ok false from by decide,
    py_bind_ok]
  rw [if_neg (by simp)]
  rw [if_neg (show ¬((Board.reset 2 2 1).placed = true) from by decide)]
  rw [hpm, py_bind_error]

/-- C9: on every board reachable from a fresh board by successful
`reveal` / `toggle_flag` calls, no cell is simultaneously flagged and
revealed. -/
theorem C9_flag_reveal_exclusive (b : Board) (h : Reachable b) :
    ∀ i j : Nat,
      ¬(natGet b.flagged i j = some true ∧ natGet b.revealed i j = some true) :=
  (Reachable_Inv h).2.2.2.1

/-- A 1×3 mine-free board with `(0, 1)` flagged. -/
def c9b : Board := getOk ((Board.reset 1 3 0).toggle_flag 0 1)

/-- C9 witness: flag/reveal exclusivity on a concrete reachable board. -/
theorem C9_witness :
    (Board.reset 1 3 0).toggle_flag 0 1 = .ok c9b ∧
    ¬(natGet c9b.flagged 0 1 = some true ∧ natGet c9b.revealed 0 1 = some true) := by
  have hok : (Board.reset 1 3 0).toggle_flag 0 1 = .ok c9b := by decide
  exact ⟨hok,
    C9_flag_reveal_exclusive c9b
      (Reachable.flag 0 1 (Reachable.reset 1 3 0) hok) 0 1⟩

/-- The reveal sequence refuting C2: on a 1×5 board with mines at
`(0, 2)` and `(0, 4)`, reveal `(0, 0)` (revealing two cells), then
reveal the mine at `(0, 2)`. -/
def c2seq : Py Board :=
  ((Board.reset 1 5 2).reveal 0 0 [(0, 2), (0, 4)]).bind (fun b => b.reveal 0 2 [])

/-- C2 counterexample: the second reveal brings the revealed count to
`rows*cols - mines_count = 3`, yet the outcome is lost, not won —
`victory = false` and `game_over = true` while the count equals the
target, because a mine reveal sets the loss outcome without consulting
`check_victory`. -/
theorem C2_counterexample :
    c2seq.map (fun b => (b.victory, b.game_over, decide (countInt b = targetInt b))) =
      .ok (false, true, true) := by
  decide

/-- C2 amended: on reachable boards, `victory` implies the count equals
the target (never before), and an operation that brings the count to the
target ends the game — with `victory` unless it revealed a mine, in
which case the game is lost with the count at the target; `toggle_flag`
never changes the count or the target. -/
theorem C2_win_condition (b : Board) (h : Reachable b) :
    (b.victory = true → b.game_over = true ∧ countInt b = targetInt b) ∧
    (∀ (r c : Int) (sample : List (Int × Int)) (b' : Board),
      b.game_over = false → b.reveal r c sample = .ok b' →
      countInt b ≠ targetInt b → countInt b' = targetInt b' →
      b'.game_over = true ∧
        (b'.victory = true ∨ ((r, c) ∈ b'.mines ∧ b'.victory = false))) ∧
    (∀ (r c : Int) (b' : Board), b.toggle_flag r c = .ok b' →
      countInt b' = countInt b ∧ targetInt b' = targetInt b) := by
  obtain ⟨hsR, hsF, hsB, hexcl, hvic, hpend⟩ := Reachable_Inv h
  refine ⟨hvic, ?_, ?_⟩
  · intro r c sample b' hgo hrev hne heq
    rcases reveal_cases hrev with ⟨hgo', _⟩ | ⟨_, _, rfl⟩ | ⟨_, _, _, rfl⟩ |
      ⟨_, _, _, b1, hplace, hbranch⟩
    · rw [hgo] at hgo'
      exact absurd hgo' (by simp)
    · exact absurd heq hne
    · exact absurd heq hne
    · have hb1go : b1.game_over = b.game_over := by
        rcases hplace with ⟨_, rfl⟩ | ⟨_, hpm⟩
        · rfl
        · exact (place_mines_spec hsB hpm).2.2.2.2.2.2.2.2.1
      rcases hbranch with ⟨hm, rev, hset, rfl⟩ | ⟨hm, rev, hcas, rfl⟩
      · exact ⟨rfl, Or.inr ⟨hm, rfl⟩⟩
      · rcases check_victory_cases { b1 with revealed := rev } with
          ⟨hgo2, heq2⟩ | ⟨_, _, heq2⟩ | ⟨_, hne2, heq2⟩
        · have hb : b.game_over = true := by
            rw [← hb1go]
            exact hgo2
          rw [hgo] at hb
          exact absurd hb (by simp)
        · rw [heq2]
          exact ⟨rfl, Or.inl rfl⟩
        · exfalso
          rw [heq2] at heq
          exact hne2 heq
  · intro r c b' htog
    rcases toggle_cases htog with ⟨_, rfl⟩ | ⟨_, _, rfl⟩ | ⟨_, _, f, flg, _, _, rfl⟩
    · exact ⟨rfl, rfl⟩
    · exact ⟨rfl, rfl⟩
    · have hp := check_victory_preserves { b with flagged := flg }
      have h1 : revealedCount ({ b with flagged := flg } : Board).check_victory =
          revealedCount ({ b with flagged := flg } : Board) :=
        revealedCount_congr hp.2.2.2.2.2.1 hp.2.2.2.2.2.2.1 hp.2.2.2.1
      have h2 : targetInt ({ b with flagged := flg } : Board).check_victory =
          targetInt ({ b with flagged := flg } : Board) := by
        unfold targetInt
        rw [hp.2.2.2.2.2.1, hp.2.2.2.2.2.2.1, hp.2.2.2.2.2.2.2]
      exact ⟨congrArg (fun n : Nat => (n : Int)) h1, h2⟩

/-- The 1×5 board after its first reveal at `(0, 0)` with mines at
`(0, 2)` and `(0, 4)`: two cells revealed, count 2, target 3. -/
def c2b1 : Board := getOk ((Board.reset 1 5 2).reveal 0 0 [(0, 2), (0, 4)])

/-- `c2b1` after revealing the mine at `(0, 2)`: count reaches the
target but the game is lost. -/
def c2bad : Board := getOk (c2b1.reveal 0 2 [])

/-- C2 witness: the amended win condition applied along the concrete
1×5 reveal sequence. -/
theorem C2_witness :
    (Board.reset 1 5 2).reveal 0 0 [(0, 2), (0, 4)] = .ok c2b1 ∧
    c2b1.reveal 0 2 [] = .ok c2bad ∧
    c2bad.game_over = true ∧
    (c2bad.victory = true ∨
      (((0 : Int), (2 : Int)) ∈ c2bad.mines ∧ c2bad.victory = false)) := by
  have h1 : (Board.reset 1 5 2).reveal 0 0 [(0, 2), (0, 4)] = .ok c2b1 := by decide
  have h2 : c2b1.reveal 0 2 [] = .ok c2bad := by decide
  have h3 := (C2_win_condition c2b1
    (Reachable.reveal 0 0 [(0, 2), (0, 4)] (Reachable.reset 1 5 2) h1)).2.1
    0 2 [] c2bad (by decide) h2 (by decide) (by decide)
  exact ⟨h1, h2, h3.1, h3.2⟩

/-- A 1×6 board with one mine placed at `(0, 5)` (safe zone around
`(0, 0)`), nothing yet revealed or flagged: the zero-count cells are
`(0, 0)`–`(0, 3)`, with numbered border `(0, 4)`. -/
def c3placed : Board := getOk ((Board.reset 1 6 1).place_mines 0 0 [(0, 5)])

/-- `c3placed` with a flag placed on the zero-count cell `(0, 1)`. -/
def c3flagged : Board := getOk (c3placed.toggle_flag 0 1)

/-- `c3flagged` after revealing the zero-count cell `(0, 0)`. -/
def c3revealed : Board := getOk (c3flagged.reveal 0 0 [])

/-- C3 counterexample: on a placed board, `(0, 0)` and `(0, 2)` are
zero-count cells of the same connected zero-count region (witnessed by
`ZeroConn` through `(0, 1)`), and `(0, 0)` is in bounds, unrevealed,
unflagged and not a mine — yet after `reveal 0 0` the region cell
`(0, 2)` is still unrevealed, because the flag on `(0, 1)` blocks the
cascade.  The claim's revealed set (the whole region plus border) is
missed. -/
theorem C3_counterexample :
    (Board.reset 1 6 1).place_mines 0 0 [(0, 5)] = .ok c3placed ∧
    c3placed.toggle_flag 0 1 = .ok c3flagged ∧
    c3flagged.reveal 0 0 [] = .ok c3revealed ∧
    c3flagged.placed = true ∧ c3flagged.game_over = false ∧
    pyGet2 c3flagged.revealed 0 0 = .ok false ∧
    pyGet2 c3flagged.flagged 0 0 = .ok false ∧
    ((0 : Int), (0 : Int)) ∉ c3flagged.mines ∧
    pyGet2 c3flagged.board 0 0 = .ok 0 ∧
    pyGet2 c3flagged.board 0 2 = .ok 0 ∧
    ZeroConn c3flagged.board 1 6 (0, 0) (0, 2) ∧
    pyGet2 c3revealed.revealed 0 2 = .ok false := by
  refine ⟨by decide, by decide, by decide, by decide, by decide, by decide, by decide,
    by decide, by decide, by decide, ?_, by decide⟩
  have h01 : ZeroConn c3flagged.board 1 6 (0, 0) (0, 1) :=
    @ZeroConn.step c3flagged.board 1 6 (0, 0) (0, 0) (0, 1)
      (ZeroConn.refl (0, 0)) (by decide) (by decide) (by decide)
  exact @ZeroConn.step c3flagged.board 1 6 (0, 0) (0, 1) (0, 2)
    h01 (by decide) (by decide) (by decide)

/-- C3 amended: a successful reveal at an in-bounds, unrevealed,
unflagged non-mine cell of an in-progress placed board reveals exactly
the previously revealed cells plus the cells `Reach`-able from `(r, c)`:
`(r, c)` itself and everything obtained by stepping from reached
zero-count cells to in-bounds neighbours that are unrevealed *and
unflagged* — the flag-free portion of the zero region and its border,
not the full region. -/
theorem C3_cascade_region (b : Board) (r c : Int) (sample : List (Int × Int)) (b' : Board)
    (hsR : Shape b.revealed b.rows b.cols)
    (hgo : b.game_over = false)
    (hpl : b.placed = true)
    (hin : inBounds b.rows b.cols r c = true)
    (hf : pyGet2 b.flagged r c = .ok false)
    (hv : pyGet2 b.revealed r c = .ok false)
    (hm : (r, c) ∉ b.mines)
    (h : b.reveal r c sample = .ok b') :
    ∀ q : Int × Int, inBounds b.rows b.cols q.1 q.2 = true →
      (pyGet2 b'.revealed q.1 q.2 = .ok true ↔
        pyGet2 b.revealed q.1 q.2 = .ok true ∨
        Reach b.board b.flagged b.rows b.cols b.revealed [(r, c)] q) := by
  rcases reveal_cases h with ⟨hgo', _⟩ | ⟨_, hf', _⟩ | ⟨_, _, hv', _⟩ |
    ⟨_, _, _, b1, hplace, hbranch⟩
  · rw [hgo] at hgo'
    exact absurd hgo' (by simp)
  · exact absurd (hf.symm.trans hf') (by simp)
  · exact absurd (hv.symm.trans hv') (by simp)
  · rcases hplace with ⟨_, rfl⟩ | ⟨hpf, _⟩
    · rcases hbranch with ⟨hm', _, _, _⟩ | ⟨_, rev, hcas, rfl⟩
      · exact absurd hm' hm
      · intro q hq
        have hrev' : (Board.check_victory { b1 with revealed := rev }).revealed = rev :=
          (check_victory_preserves _).2.2.2.1
        rw [hrev']
        exact cascadeF_closure (9 * unrevCount b1.revealed + 2) b1.revealed [(r, c)] rev hsR
          (fun p hp => by
            rcases List.mem_cons.mp hp with rfl | hp'
            · exact hin
            · simp at hp') hcas q hq
    · rw [hpl] at hpf
      exact absurd hpf (by simp)

/-- `c3placed` after revealing `(0, 0)` with no flag in the way: the
whole zero region and its border open up. -/
def c3open : Board := getOk (c3placed.reveal 0 0 [])

/-- C3 witness: the amended characterization applied on `c3placed` at
the revealed query cell `(0, 3)`. -/
theorem C3_witness :
    c3placed.reveal 0 0 [] = .ok c3open ∧
    pyGet2 c3open.revealed 0 3 = .ok true ∧
    (pyGet2 c3placed.revealed 0 3 = .ok true ∨
      Reach c3placed.board c3placed.flagged c3placed.rows c3placed.cols
        c3placed.revealed [(0, 0)] (0, 3)) := by
  have hok : c3placed.reveal 0 0 [] = .ok c3open := by decide
  have h := C3_cascade_region c3placed 0 0 [] c3open (by decide) (by decide) (by decide)
    (by decide) (by decide) (by decide) (by decide) hok (0, 3) (by decide)
  exact ⟨hok, by decide, h.mp (by decide)⟩

/-- A finished (won) 1×3 board with no mines: one reveal opens
everything and sets `game_over`. -/
def c10win : Board := getOk ((Board.reset 1 3 0).reveal 0 0 [])

/-- C10 counterexample: on a finished board, `reveal` and `toggle_flag`
with row 3 ≥ rows = 1 and column 5 ≥ cols = 3 do *not* raise
`IndexError` — the `game_over` short-circuit returns the board unchanged
before any index is read, refuting the unconditional claim. -/
theorem C10_counterexample :
    (Board.reset 1 3 0).reveal 0 0 [] = .ok c10win ∧
    c10win.game_over = true ∧
    c10win.reveal 3 0 [] = .ok c10win ∧
    c10win.toggle_flag 0 5 = .ok c10win := by
  decide

/-- C10 amended: on an in-progress board (`game_over = false`),
coordinates outside Python's wrap range raise `IndexError` from both
`reveal` and `toggle_flag`; a coordinate inside the wrap range is
silently normalised — `toggle_flag` behaves exactly as at the wrapped
nonnegative index, and `reveal` at an unflagged, unrevealed wrapped cell
of a placed board succeeds and mutates that wrapped cell to revealed. -/
theorem C10_negative_wrap (b : Board)
    (hsR : Shape b.revealed b.rows b.cols)
    (hsF : Shape b.flagged b.rows b.cols)
    (hgo : b.game_over = false) :
    (∀ r c : Int, normIdx b.rows r = none ∨ normIdx b.cols c = none →
      (∀ sample : List (Int × Int), b.reveal r c sample = .error .indexError) ∧
      b.toggle_flag r c = .error .indexError) ∧
    (∀ (r c : Int) (i j : Nat), normIdx b.rows r = some i → normIdx b.cols c = some j →
      b.toggle_flag r c = b.toggle_flag (i : Int) (j : Int)) ∧
    (∀ (r c : Int) (i j : Nat), normIdx b.rows r = some i → normIdx b.cols c = some j →
      b.placed = true → Shape b.board b.rows b.cols →
      natGet b.flagged i j = some false → natGet b.revealed i j = some false →
      ∀ sample : List (Int × Int),
        ∃ b', b.reveal r c sample = .ok b' ∧ natGet b'.revealed i j = some true) := by
  refine ⟨?_, ?_, ?_⟩
  · intro r c hnorm
    constructor
    · intro sample
      unfold Board.reveal
      rw [if_neg (by rw [hgo]; simp)]
      rw [pyGet2_indexError hsF hnorm, py_bind_error]
    · unfold Board.toggle_flag
      rw [if_neg (by rw [hgo]; simp)]
      rw [pyGet2_indexError hsR hnorm, py_bind_error]
  · intro r c i j hr hc
    unfold Board.toggle_flag
    simp only [pyGet2_norm_congr hsR hr hc, pyGet2_norm_congr hsF hr hc,
      pySet2_norm_congr hsF hr hc]
  · intro r c i j hr hc hpl hsB hflag hrev sample
    have hfr : pyGet2 b.flagged r c = .ok false := (pyGet2_shape_ok hsF hr hc).mpr hflag
    have hrr : pyGet2 b.revealed r c = .ok false := (pyGet2_shape_ok hsR hr hc).mpr hrev
    obtain ⟨rev1, hset⟩ := pySet2_exists_of_pyGet2 hrr true
    have hrev1 : natGet rev1 i j = some true := by
      rw [natGet_pySet2 hsR hr hc hset i j, if_pos ⟨rfl, rfl⟩]
    by_cases hm : (r, c) ∈ b.mines
    · refine ⟨{ b with revealed := rev1, game_over := true, victory := false }, ?_, hrev1⟩
      unfold Board.reveal
      rw [if_neg (by rw [hgo]; simp)]
      simp only [hfr, py_bind_ok]
      rw [if_neg (by simp)]
      simp only [hrr, py_bind_ok]
      rw [if_neg (by simp)]
      rw [hpl, if_pos rfl]
      simp only [py_pure_bind]
      rw [if_pos hm]
      simp only [hset, py_bind_ok]
      rw [hpl]
      rfl
    · obtain ⟨rev'', hcas⟩ := @cascadeF_ok b.board b.flagged b.rows b.cols
        (9 * unrevCount b.revealed + 2) b.revealed [(r, c)] hsR hsB
        (fun p hp => by
          rcases List.mem_cons.mp hp with rfl | hp'
          · exact ⟨by simp [hr], by simp [hc]⟩
          · simp at hp')
        (by simp)
      refine ⟨Board.check_victory { b with revealed := rev'' }, ?_, ?_⟩
      · unfold Board.reveal
        rw [if_neg (by rw [hgo]; simp)]
        simp only [hfr, py_bind_ok]
        rw [if_neg (by simp)]
        simp only [hrr, py_bind_ok]
        rw [if_neg (by simp)]
        rw [hpl, if_pos rfl]
        simp only [py_pure_bind]
        rw [if_neg hm]
        simp only [hcas, py_bind_ok]
        rw [hpl]
        rfl
      · rw [(check_victory_preserves _).2.2.2.1]
        obtain ⟨v, hbv, _⟩ := pyGet2_ok_of_norms hsB hr hc
        have hfuel : 9 * unrevCount b.revealed + 2 = (9 * unrevCount b.revealed + 1) + 1 :=
          rfl
        rw [hfuel] at hcas
        simp only [cascadeF] at hcas
        simp only [hrr] at hcas
        simp only [hset] at hcas
        simp only [hbv] at hcas
        exact cascadeF_true_mono _ rev1 _ rev'' hcas i j hrev1

/-- C10 witness: on the in-progress 1×5 board `c2b1`, row 5 raises
`IndexError`, a `(-1, -1)` toggle equals the `(0, 4)` toggle, and a
`(-1, -1)` reveal succeeds and reveals the wrapped cell `(0, 4)`. -/
theorem C10_witness :
    normIdx c2b1.rows (-1) = some 0 ∧ normIdx c2b1.cols (-1) = some 4 ∧
    (∃ b', c2b1.reveal (-1) (-1) [] = .ok b' ∧ natGet b'.revealed 0 4 = some true) ∧
    (c2b1.reveal 5 0 [] = .error .indexError) ∧
    c2b1.toggle_flag (-1) (-1) = c2b1.toggle_flag 0 4 := by
  have h := C10_negative_wrap c2b1 (by decide) (by decide) (by decide)
  refine ⟨by decide, by decide, ?_, ?_, ?_⟩
  · exact h.2.2 (-1) (-1) 0 4 (by decide) (by decide) (by decide) (by decide)
      (by decide) (by decide) []
  · exact (h.1 5 0 (Or.inl (by decide))).1 []
  · exact h.2.1 (-1) (-1) 0 4 (by decide) (by decide)

end MineSweeper
